import Mathlib

/-!
Verification of the lead-prospecting pipeline in app.py: URL
normalization (domain_of), site classification (looks_like_business_site),
generic-inbox detection (is_generic_email), MX fail-open logic
(verify_email_mx), the email regular expression (EMAIL_RE), HTML contact
extraction (extract_company_info_from_html), the search providers
(search_bing_api, search_serp_api), domain deduplication, site probing
and lead upsert (upsert_lead).  Strings are modelled as lists of
characters; network responses and the HTML/JSON parses produced by the
external libraries are modelled as explicit input values, while every
decision made by the program itself is translated line by line.
-/

/-- Convert a string literal to the list-of-characters representation used
throughout this development. -/
def cs (s : String) : List Char := s.data

/-- ASCII lowercasing of a character list; Python str.lower restricted to
the ASCII data this program handles. -/
def asciiLower (s : List Char) : List Char := s.map Char.toLower

/-- Python str.strip whitespace set. -/
def pyWS (c : Char) : Bool :=
  c == ' ' || c == '\t' || c == '\n' || c == '\r' || c == '\x0b' || c == '\x0c'

/-- Python str.strip with no arguments: drop leading and trailing whitespace. -/
def pyStrip (s : List Char) : List Char :=
  ((s.dropWhile pyWS).reverse.dropWhile pyWS).reverse

/-- Python s.rstrip with argument a slash, as in base.rstrip of the probe loop. -/
def pyRstripSlash (s : List Char) : List Char :=
  (s.reverse.dropWhile (· == '/')).reverse

/-- Python substring containment, the operator used on domain strings in
looks_like_business_site. -/
def isSubstr (nd : List Char) : List Char → Bool
  | [] => nd.isEmpty
  | c :: t => nd.isPrefixOf (c :: t) || isSubstr nd t

/-- urllib.parse removes every tab, carriage return and newline from the URL
before splitting it. -/
def sanitizeUrl (u : List Char) : List Char :=
  u.filter (fun c => !(c == '\t' || c == '\r' || c == '\n'))

/-- Characters urllib.parse accepts inside a URL scheme. -/
def schemeChar (c : Char) : Bool :=
  c.isAlphanum || c == '+' || c == '-' || c == '.'

/-- The scheme-splitting step of urllib.parse.urlsplit: when the text before
the first colon is a well-formed scheme, drop it together with the colon;
otherwise leave the URL unchanged. -/
def splitSchemeRest (u : List Char) : List Char :=
  match u.findIdx? (· == ':') with
  | some i =>
    if (i != 0) && (match u.head? with | some c => c.isAlpha | none => false)
        && (u.take i).all schemeChar then
      u.drop (i + 1)
    else u
  | none => u

/-- Characters that terminate the network-location component. -/
def stopChar (c : Char) : Bool := c == '/' || c == '?' || c == '#'

/-- The bracket sanity check of urlsplit; an unbalanced bracket makes it
raise ValueError. -/
def bracketBad (n : List Char) : Bool :=
  (n.contains '[' && !n.contains ']') || (n.contains ']' && !n.contains '[')

/-- The netloc produced by urllib.parse.urlparse, or an error on the one
path where urlsplit raises (unbalanced square brackets). -/
def pyNetlocE (u0 : List Char) : Except Unit (List Char) :=
  let u := sanitizeUrl u0
  let r := splitSchemeRest u
  match r with
  | '/' :: '/' :: rest =>
    let n := rest.takeWhile (fun c => !stopChar c)
    if bracketBad n then .error () else .ok n
  | _ => .ok []

/-- app.py domain_of: lowercased netloc with one leading www. label removed,
empty both when the netloc is empty and when urlparse raises. -/
def domain_of (u : List Char) : List Char :=
  match pyNetlocE u with
  | .error _ => []
  | .ok n =>
    let d := asciiLower n
    if (cs "www.").isPrefixOf d then d.drop 4 else d

/-- app.py SOCIAL_AGG_DOMAINS tuple. -/
def SOCIAL_AGG_DOMAINS : List (List Char) :=
  [cs "facebook.com", cs "instagram.com", cs "linkedin.com", cs "twitter.com",
   cs "x.com", cs "youtube.com", cs "yelp.com", cs "angieslist.com",
   cs "houzz.com", cs "pinterest.com", cs "tiktok.com", cs "homeadvisor.com",
   cs "thumbtack.com", cs "porch.com", cs "bbb.org"]

/-- app.py EXCLUDE_DOMAINS tuple. -/
def EXCLUDE_DOMAINS : List (List Char) :=
  [cs "google.com", cs "maps.google.com", cs "duckduckgo.com", cs "bing.com",
   cs "support.google.com", cs "developers.google.com",
   cs "webcache.googleusercontent.com"]

/-- app.py GENERIC_PREFIXES set. -/
def GENERIC_PREFIXES : List (List Char) :=
  [cs "info", cs "contact", cs "sales", cs "hello", cs "admin",
   cs "support", cs "office", cs "team"]

/-- The fixed suffix allow-list appearing inline in looks_like_business_site. -/
def ALLOWED_TLDS : List (List Char) :=
  [cs ".com", cs ".net", cs ".org", cs ".io", cs ".co", cs ".us"]

/-- app.py is_generic_email: lowercased local part tested against the
generic set; an address with no at-sign takes the exception path and is
reported non-generic. -/
def is_generic_email (email : List Char) : Bool :=
  if email.contains '@' then
    GENERIC_PREFIXES.contains (asciiLower (email.takeWhile (· != '@')))
  else false

/-- app.py looks_like_business_site, translated clause by clause. -/
def looks_like_business_site (u : List Char) : Bool :=
  let d := domain_of u
  if d.isEmpty then false
  else if SOCIAL_AGG_DOMAINS.any (fun s => isSubstr s d) then false
  else if EXCLUDE_DOMAINS.any (fun x => x.isSuffixOf d || d == x) then false
  else if ALLOWED_TLDS.any (fun t => t.isSuffixOf d) then true
  else false

/-- The site-classifier contract as the specification words it: ordered
rules, first matching rule deciding, written as one boolean formula. -/
def isBusinessSiteSpec (u : List Char) : Bool :=
  let d := domain_of u
  !d.isEmpty
    && !(SOCIAL_AGG_DOMAINS.any (fun s => isSubstr s d))
    && !(EXCLUDE_DOMAINS.any (fun x => x.isSuffixOf d || d == x))
    && ALLOWED_TLDS.any (fun t => t.isSuffixOf d)

example : domain_of (cs "https://www.Acme-Builders.com/projects?x=1") =
    cs "acme-builders.com" := by decide

example : domain_of (cs "not a url") = [] := by decide

example : looks_like_business_site (cs "https://www.facebook.com/somepage") = false := by
  decide

example : looks_like_business_site (cs "https://acmebuilders.net") = true := by
  decide

/-- Word characters for the regex word-boundary assertion. -/
def isWordChar (c : Char) : Bool := c.isAlphanum || c == '_'

/-- Characters of the EMAIL_RE local-part class. -/
def isLocalChar (c : Char) : Bool :=
  c.isAlphanum || c == '.' || c == '_' || c == '%' || c == '+' || c == '-'

/-- Characters of the EMAIL_RE domain class. -/
def isDomChar (c : Char) : Bool := c.isAlphanum || c == '.' || c == '-'

/-- Wordness of an optional character, the edges of the text counting as
non-word. -/
def wordB : Option Char → Bool
  | some c => isWordChar c
  | none => false

/-- The regex word-boundary test between two adjacent positions. -/
def boundaryB (prev cur : Option Char) : Bool := wordB prev != wordB cur

/-- Backtracking tail of EMAIL_RE after the at-sign: given the maximal run d
of domain characters and the remainder r3, find the greedy split into a
domain-character block, a literal dot, and at least two letters followed by
a word boundary.  Returns the matched tail and the unconsumed rest. -/
def emailDomTail (d r3 : List Char) : Option (List Char × List Char) :=
  (List.range d.length).reverse.findSome? fun k =>
    if 1 ≤ k ∧ d.get? k = some '.' then
      let after := d.drop (k + 1)
      let arun := after.takeWhile Char.isAlpha
      (List.range (arun.length + 1)).reverse.findSome? fun j =>
        if 2 ≤ j then
          let nxt := match after.drop j with
            | c :: _ => some c
            | [] => r3.head?
          if (match nxt with | none => true | some c => !isWordChar c) then
            some (d.take k ++ '.' :: arun.take j, after.drop j ++ r3)
          else none
        else none
    else none

/-- Match EMAIL_RE at the current position, prev being the character just
before it; returns the matched text and the rest of the input. -/
def matchEmailAt (prev : Option Char) (s : List Char) : Option (List Char × List Char) :=
  if boundaryB prev s.head? then
    let l := s.takeWhile isLocalChar
    let r1 := s.dropWhile isLocalChar
    if l.isEmpty then none
    else
      match r1 with
      | '@' :: r2 =>
        let d := r2.takeWhile isDomChar
        let r3 := r2.dropWhile isDomChar
        match emailDomTail d r3 with
        | some (dm, rest) => some (l ++ '@' :: dm, rest)
        | none => none
      | _ => none
  else none

/-- EMAIL_RE.match: a match anchored at the start of the string. -/
def emailMatch (s : List Char) : Bool := (matchEmailAt none s).isSome

/-- Left-to-right non-overlapping scan implementing re.findall for
EMAIL_RE, with fuel bounding the recursion. -/
def emailScan : Nat → Option Char → List Char → List (List Char)
  | 0, _, _ => []
  | _ + 1, _, [] => []
  | fuel + 1, prev, c :: rest =>
    match matchEmailAt prev (c :: rest) with
    | some (m, r) => m :: emailScan fuel m.getLast? r
    | none => emailScan fuel (some c) rest

/-- EMAIL_RE.findall over a text. -/
def emailFindall (s : List Char) : List (List Char) :=
  emailScan (s.length + 1) none s

example : emailMatch (cs "Sales@Acme.com") = true := by decide
example : emailMatch (cs "foo@bar") = false := by decide
example : emailMatch (cs "a@b.com ?subject=hi") = true := by decide
example : emailFindall (cs "contact: test@example.com now") =
    [cs "test@example.com"] := by decide

/-- Outcome of the DNS-over-HTTPS MX query as seen by verify_email_mx: the
request either yields an OK response whose parsed Answer field is truthy or
not, yields a non-OK status, or raises (timeout, bad JSON, missing at-sign). -/
inductive MxResponse where
  | ok (answer : Bool)
  | httpError
  | exn
deriving DecidableEq

/-- app.py verify_email_mx: reject only on a definite empty answer,
permissive on every failure of the lookup itself. -/
def verify_email_mx : MxResponse → Bool
  | .ok a => a
  | .httpError => true
  | .exn => true

/-- The parse of one HTML page as produced by BeautifulSoup, holding
exactly the pieces extract_company_info_from_html reads: hrefs of the
selected mailto anchors, texts of the phone nodes, the PHONE_RE matches of
the visible text (the phone regex is an external primitive), the visible
text itself, and the stripped title, first-heading and organization texts. -/
structure HtmlDoc where
  mailtoHrefs : List (List Char)
  phoneNodeTexts : List (List Char)
  phoneTextMatches : List (List Char)
  text : List Char
  title : Option (List Char)
  h1Text : Option (List Char)
  orgText : Option (List Char)
deriving DecidableEq

/-- Python str.replace helper with explicit fuel. -/
def pyReplaceGo (pat rep : List Char) : Nat → List Char → List Char
  | 0, t => t
  | _ + 1, [] => []
  | fuel + 1, c :: t =>
    if pat.isPrefixOf (c :: t) ∧ pat ≠ [] then
      rep ++ pyReplaceGo pat rep fuel ((c :: t).drop pat.length)
    else c :: pyReplaceGo pat rep fuel t

/-- Python str.replace: substitute every occurrence, scanning left to right. -/
def pyReplace (pat rep s : List Char) : List Char :=
  pyReplaceGo pat rep (s.length + 1) s

/-- First truthy string of a list, as _first_non_empty applied to strings. -/
def firstNonEmptyL (l : List (List Char)) : Option (List Char) :=
  l.find? (fun v => !v.isEmpty)

/-- First truthy value among optional strings, as _first_non_empty applied
to the company candidates. -/
def firstNonEmptyO : List (Option (List Char)) → Option (List Char)
  | [] => none
  | some s :: t => if s.isEmpty then firstNonEmptyO t else some s
  | none :: t => firstNonEmptyO t

/-- The part of a string before the first occurrence of a separator,
Python s.split(sep) taken at index zero. -/
def splitHead (sep : List Char) : List Char → List Char
  | [] => []
  | c :: t => if sep.isPrefixOf (c :: t) ∧ sep ≠ [] then [] else c :: splitHead sep t

/-- app.py extract_company_info_from_html on a parsed page, translated line
by line: mailto targets are stripped of the mailto: text, filtered by
EMAIL_RE.match and cut before a question mark; the email prefers the first
truthy mailto entry, falling back to the first EMAIL_RE match of the
visible text; the company prefers the separator-truncated title, then the
first heading, then the organization node; phones prefer phone-node texts
over visible-text matches. -/
def extract_company_info_from_html (doc : HtmlDoc) :
    Option (List Char) × Option (List Char) × Option (List Char) :=
  let mailto0 := doc.mailtoHrefs.map (fun h => pyStrip (pyReplace (cs "mailto:") [] h))
  let mailto := (mailto0.filter emailMatch).map (fun e => e.takeWhile (· != '?'))
  let phones := doc.phoneNodeTexts ++ doc.phoneTextMatches
  let title := pyStrip (doc.title.getD [])
  let title_main :=
    if title.isEmpty then none
    else some ((pyStrip (splitHead (cs " - ")
      (splitHead (cs " – ") (splitHead (cs " | ") title)))).take 120)
  let h1_txt := match doc.h1Text with
    | some s => if s.isEmpty then none else some (s.take 120)
    | none => none
  let org_txt := doc.orgText.map (fun s => s.take 120)
  let company := firstNonEmptyO [title_main, h1_txt, org_txt]
  let email := match firstNonEmptyL mailto with
    | some e => some e
    | none => firstNonEmptyL (emailFindall doc.text)
  let phone := firstNonEmptyL phones
  (company, email, phone)

/-- app.py extract_company_info: the page fetch is an oracle; none stands
for every failed or empty fetch, in which case the function returns the
all-empty triple without raising. -/
def extract_company_info (fetch : List Char → Option HtmlDoc) (url : List Char) :
    Option (List Char) × Option (List Char) × Option (List Char) :=
  match fetch url with
  | none => (none, none, none)
  | some doc => extract_company_info_from_html doc

/-- The two sidebar quality-filter toggles read by upsert_lead. -/
structure LeadCfg where
  skip_generic : Bool
  verify_mx : Bool
deriving DecidableEq

/-- One row of the session lead table. -/
structure Lead where
  company : List Char
  email : List Char
  website : List Char
  phone : List Char
  source : List Char
deriving DecidableEq

/-- Python truthiness of an optional string. -/
def truthyS : Option (List Char) → Bool
  | some (_ :: _) => true
  | _ => false

/-- app.py upsert_lead, the quality-filter gate plus the case-insensitive
duplicate check against the current table; mx is the resolver oracle giving
the outcome verify_email_mx would see for an email.  The function mirrors
the source exactly: the duplicate test lowercases the incoming email as
given, while the stored row strips it. -/
def upsert_lead (cfg : LeadCfg) (mx : List Char → MxResponse) (leads : List Lead)
    (name : Option (List Char)) (email? : Option (List Char))
    (website : List Char) (phone : Option (List Char)) (source : List Char) :
    List Lead :=
  match email? with
  | none => leads
  | some email =>
    if email.isEmpty then leads
    else if cfg.skip_generic && is_generic_email email then leads
    else if cfg.verify_mx && !verify_email_mx (mx email) then leads
    else if (leads.map (fun l => asciiLower l.email)).contains (asciiLower email) then
      leads
    else
      leads ++ [{ company := (pyStrip (name.getD [])).take 120,
                  email := pyStrip email,
                  website := website,
                  phone := pyStrip (phone.getD []),
                  source := source }]

/-- The fixed ordered page-suffix list of the Search tab probe loop. -/
def pageSuffixes : List (List Char) :=
  [[], cs "/contact", cs "/contact-us", cs "/contactus", cs "/about",
   cs "/team", cs "/contacts"]

/-- The per-site probe loop of the Search tab: walk the suffixes in order,
fetch and extract each page, and break at the first page whose extracted
email is truthy.  Returns the list of page URLs actually fetched together
with the extraction result of the stopping page, if any. -/
def probePages (fetch : List Char → Option HtmlDoc) (base : List Char) :
    List (List Char) →
    List (List Char) × Option (Option (List Char) × Option (List Char) × Option (List Char))
  | [] => ([], none)
  | path :: rest =>
    let target := pyRstripSlash base ++ path
    let res := extract_company_info fetch target
    if truthyS res.2.1 then ([target], some res)
    else
      let pr := probePages fetch base rest
      (target :: pr.1, pr.2)

/-- One iteration of the Search tab site loop: probe the site and, when a
page produced an email, upsert the contact with the site URL as website and
the provider-path source string. -/
def processSite (cfg : LeadCfg) (mx : List Char → MxResponse)
    (fetch : List Char → Option HtmlDoc) (unlockerOn : Bool)
    (leads : List Lead) (base : List Char) : List Lead :=
  match (probePages fetch base pageSuffixes).2 with
  | none => leads
  | some res =>
    upsert_lead cfg mx leads res.1 res.2.1 base res.2.2
      (if unlockerOn then cs "serp+unlocker" else cs "serp")

/-- One step of the by_domain deduplication loop of the Search tab: the key
is the domain, or the raw URL when the domain is empty; a URL is kept when
its key is new and does not equal or end with an excluded domain. -/
def dedupeStep (acc : List (List Char × List Char)) (u : List Char) :
    List (List Char × List Char) :=
  let d := if (domain_of u).isEmpty then u else domain_of u
  if acc.any (fun kv => kv.1 == d) then acc
  else if EXCLUDE_DOMAINS.any (fun x => x.isSuffixOf d || d == x) then acc
  else acc ++ [(d, u)]

/-- The Search tab domain deduplication: fold the URLs through the ordered
dictionary and truncate the first-seen values to max_sites. -/
def dedupeByDomain (all_urls : List (List Char)) (max_sites : Nat) : List (List Char) :=
  ((all_urls.foldl dedupeStep []).map (fun kv => kv.2)).take max_sites

/-- JSON values as returned by response.json(). -/
inductive Json where
  | null
  | bool (b : Bool)
  | num (n : Int)
  | str (s : List Char)
  | arr (items : List Json)
  | obj (fields : List (List Char × Json))

/-- Python truthiness of a JSON value. -/
def jTruthy : Json → Bool
  | .null => false
  | .bool b => b
  | .num n => n != 0
  | .str s => !s.isEmpty
  | .arr l => !l.isEmpty
  | .obj f => !f.isEmpty

/-- Look a key up in the field list of an object. -/
def jGetRaw (fields : List (List Char × Json)) (k : List Char) : Option Json :=
  (fields.find? (fun kv => kv.1 == k)).map (fun kv => kv.2)

/-- Python x.get(k): None when the key is absent, an attribute error when x
is not a dictionary. -/
def jGet? (j : Json) (k : List Char) : Except Unit Json :=
  match j with
  | .obj fields => .ok ((jGetRaw fields k).getD .null)
  | _ => .error ()

/-- Python x.get(k, dflt) on a dictionary, an attribute error otherwise. -/
def jGetD (j : Json) (k : List Char) (dflt : Json) : Except Unit Json :=
  match j with
  | .obj fields => .ok ((jGetRaw fields k).getD dflt)
  | _ => .error ()

/-- Python x[k]: a key error when absent, a type error when x is not a
dictionary. -/
def jIndex (j : Json) (k : List Char) : Except Unit Json :=
  match j with
  | .obj fields =>
    match jGetRaw fields k with
    | some v => .ok v
    | none => .error ()
  | _ => .error ()

/-- Python iteration over a JSON value: lists yield their items,
dictionaries their keys, strings their characters as one-character strings,
anything else a type error. -/
def pyIter : Json → Except Unit (List Json)
  | .arr l => .ok l
  | .obj f => .ok (f.map (fun kv => Json.str kv.1))
  | .str s => .ok (s.map (fun c => Json.str [c]))
  | _ => .error ()

/-- Python list slicing lst up to count, for a possibly negative count. -/
def pySliceTo (count : Int) (l : List α) : List α :=
  if 0 ≤ count then l.take count.toNat
  else l.take (l.length - (-count).toNat)

/-- The body of the Bing URL harvest: data.get of webPages (or an empty
dictionary), its value field defaulting to an empty list, then the url of
every entry whose url is truthy; any Python exception aborts the whole
computation. -/
def bingExtract (data : Json) : Except Unit (List Json) := do
  let wp ← jGet? data (cs "webPages")
  let wp := if jTruthy wp then wp else Json.obj []
  let vals ← jGetD wp (cs "value") (Json.arr [])
  let items ← pyIter vals
  items.foldlM (fun acc v => do
    let g ← jGet? v (cs "url")
    if jTruthy g then
      let u ← jIndex v (cs "url")
      pure (acc ++ [u])
    else pure acc) []

/-- Outcome of the provider HTTP call: ok carries the parsed JSON; failure
stands for every raised exception, including error statuses, timeouts and
malformed JSON. -/
inductive ApiResponse where
  | failure
  | ok (data : Json)

/-- The site classifier applied to a harvested JSON value: a non-string
makes urlparse raise inside domain_of, so only strings can pass. -/
def classifierJ : Json → Bool
  | .str s => looks_like_business_site s
  | _ => false

/-- app.py search_bing_api: empty on a missing key or any provider failure,
otherwise the harvested URLs filtered through the site classifier and
sliced to count. -/
def search_bing_api (key : List Char) (resp : ApiResponse) (count : Int) :
    List Json :=
  if key.isEmpty then []
  else
    match resp with
    | .failure => []
    | .ok data =>
      match bingExtract data with
      | .error _ => []
      | .ok urls => pySliceTo count (urls.filter classifierJ)

/-- The serp URL harvest over the three tolerated response shapes: a
dictionary with a webPages dictionary holding value, a dictionary with a
results list of url-or-link entries, or a bare list of strings and
dictionaries; other shapes leave the URL list empty. -/
def serpExtract : Json → Except Unit (List Json)
  | .obj fields =>
    match (match jGetRaw fields (cs "webPages") with
           | some (Json.obj wpf) => jGetRaw wpf (cs "value")
           | _ => none) with
    | some vals => do
      let items ← pyIter vals
      items.foldlM (fun acc v => do
        let g ← jGet? v (cs "url")
        if jTruthy g then pure (acc ++ [g]) else pure acc) []
    | none =>
      match jGetRaw fields (cs "results") with
      | some (Json.arr items) =>
        items.foldlM (fun acc item => do
          let gu ← jGet? item (cs "url")
          let u ← if jTruthy gu then pure gu else jGet? item (cs "link")
          if jTruthy u then pure (acc ++ [u]) else pure acc) []
      | _ => pure []
  | .arr items =>
    pure (items.foldl (fun acc item =>
      match item with
      | .str s => acc ++ [Json.str s]
      | .obj f =>
        let u := match jGetRaw f (cs "url") with
          | some g => if jTruthy g then g else (jGetRaw f (cs "link")).getD .null
          | none => (jGetRaw f (cs "link")).getD .null
        if jTruthy u then acc ++ [u] else acc
      | _ => acc) [])
  | _ => pure []

/-- app.py search_serp_api: empty on a missing base URL or key or any
provider failure, otherwise the harvested URLs filtered through truthiness
and the site classifier and sliced to count. -/
def search_serp_api (base_url key : List Char) (resp : ApiResponse) (count : Int) :
    List Json :=
  if base_url.isEmpty || key.isEmpty then []
  else
    match resp with
    | .failure => []
    | .ok data =>
      match serpExtract data with
      | .error _ => []
      | .ok urls => pySliceTo count (urls.filter (fun u => jTruthy u && classifierJ u))

/-- Convert Char.ofNat back to the number on the valid low range. -/
lemma charOfNat_toNat (n : Nat) (h : n < 55296) : (Char.ofNat n).toNat = n := by
  have hv : n.isValidChar := Or.inl h
  rw [Char.ofNat, dif_pos hv]
  simp [Char.ofNatAux, Char.toNat, UInt32.toNat, BitVec.toNat_ofNatLt]

/-- Unfold Char.toLower into its conditional form. -/
lemma toLower_eq_ite (c : Char) :
    Char.toLower c = if c.toNat ≥ 65 ∧ c.toNat ≤ 90 then Char.ofNat (c.toNat + 32) else c := rfl

/-- Characters with equal code points are equal. -/
lemma char_toNat_inj {a b : Char} (h : a.toNat = b.toNat) : a = b := by
  have ha := Char.ofNat_toNat a
  rw [h, Char.ofNat_toNat b] at ha
  exact ha.symm

/-- Code point of the lowercased character. -/
lemma toLower_toNat (c : Char) :
    (Char.toLower c).toNat = if c.toNat ≥ 65 ∧ c.toNat ≤ 90 then c.toNat + 32 else c.toNat := by
  rw [toLower_eq_ite]
  by_cases h : c.toNat ≥ 65 ∧ c.toNat ≤ 90
  · rw [if_pos h, if_pos h, charOfNat_toNat _ (by omega)]
  · rw [if_neg h, if_neg h]

/-- Lowercasing a character twice equals lowercasing once. -/
lemma toLower_idem (c : Char) : Char.toLower (Char.toLower c) = Char.toLower c := by
  by_cases h : c.toNat ≥ 65 ∧ c.toNat ≤ 90
  · have h1 : (Char.toLower c).toNat = c.toNat + 32 := by rw [toLower_toNat, if_pos h]
    rw [toLower_eq_ite (Char.toLower c), if_neg (by omega)]
  · have h1 : Char.toLower c = c := by rw [toLower_eq_ite, if_neg h]
    rw [h1, h1]

/-- Lowercasing reflects equality with any character outside the images and
preimages of the case change. -/
lemma toLower_eq_low {c : Char} (a : Char) (h1 : a.toNat < 97)
    (h2 : ¬(a.toNat ≥ 65 ∧ a.toNat ≤ 90)) : Char.toLower c = a ↔ c = a := by
  constructor
  · intro h
    by_cases hc : c.toNat ≥ 65 ∧ c.toNat ≤ 90
    · exfalso
      have := congrArg Char.toNat h
      rw [toLower_toNat, if_pos hc] at this
      omega
    · rwa [toLower_eq_ite, if_neg hc] at h
  · intro h
    subst h
    rw [toLower_eq_ite, if_neg h2]

/-- Boolean form of toLower_eq_low. -/
lemma toLower_beq_low (c a : Char) (h1 : a.toNat < 97)
    (h2 : ¬(a.toNat ≥ 65 ∧ a.toNat ≤ 90)) :
    (Char.toLower c == a) = (c == a) := by
  by_cases h : c = a
  · rw [beq_iff_eq.mpr ((toLower_eq_low a h1 h2).mpr h), beq_iff_eq.mpr h]
  · have hl : ¬(Char.toLower c = a) := fun hx => h ((toLower_eq_low a h1 h2).mp hx)
    rw [beq_eq_false_iff_ne.mpr hl, beq_eq_false_iff_ne.mpr h]

/-- Code-point characterization of Char.isAlpha. -/
lemma isAlpha_iff (c : Char) : c.isAlpha = true ↔
    (65 ≤ c.toNat ∧ c.toNat ≤ 90) ∨ (97 ≤ c.toNat ∧ c.toNat ≤ 122) := by
  simp [Char.isAlpha, Char.isUpper, Char.isLower]
  rfl

/-- Code-point characterization of Char.isDigit. -/
lemma isDigit_iff (c : Char) : c.isDigit = true ↔ 48 ≤ c.toNat ∧ c.toNat ≤ 57 := by
  simp [Char.isDigit]
  rfl

/-- Lowercasing preserves alphabetic-ness. -/
lemma isAlpha_toLower (c : Char) : (Char.toLower c).isAlpha = c.isAlpha := by
  by_cases h : c.toNat ≥ 65 ∧ c.toNat ≤ 90
  · have h1 : (Char.toLower c).toNat = c.toNat + 32 := by rw [toLower_toNat, if_pos h]
    have hc : c.isAlpha = true := (isAlpha_iff c).mpr (Or.inl ⟨h.1, h.2⟩)
    have hlc : (Char.toLower c).isAlpha = true := (isAlpha_iff _).mpr (Or.inr (by omega))
    rw [hc, hlc]
  · rw [toLower_eq_ite, if_neg h]

/-- Lowercasing preserves digit-ness. -/
lemma isDigit_toLower (c : Char) : (Char.toLower c).isDigit = c.isDigit := by
  by_cases h : c.toNat ≥ 65 ∧ c.toNat ≤ 90
  · have h1 : (Char.toLower c).toNat = c.toNat + 32 := by rw [toLower_toNat, if_pos h]
    have hc : c.isDigit = false := by
      rcases hd : c.isDigit with _ | _
      · rfl
      · have := (isDigit_iff c).mp hd
        omega
    have hlc : (Char.toLower c).isDigit = false := by
      rcases hd : (Char.toLower c).isDigit with _ | _
      · rfl
      · have := (isDigit_iff _).mp hd
        omega
    rw [hc, hlc]
  · rw [toLower_eq_ite, if_neg h]

/-- Lowercasing preserves alphanumeric-ness. -/
lemma isAlphanum_toLower (c : Char) : (Char.toLower c).isAlphanum = c.isAlphanum := by
  simp [Char.isAlphanum, isAlpha_toLower, isDigit_toLower]

/-- Lowercasing preserves scheme-character-ness. -/
lemma schemeChar_toLower (c : Char) : schemeChar (Char.toLower c) = schemeChar c := by
  simp only [schemeChar, isAlphanum_toLower,
    toLower_beq_low c '+' (by decide) (by decide),
    toLower_beq_low c '-' (by decide) (by decide),
    toLower_beq_low c '.' (by decide) (by decide)]

/-- Lowercasing preserves netloc stop characters. -/
lemma stopChar_toLower (c : Char) : stopChar (Char.toLower c) = stopChar c := by
  simp only [stopChar,
    toLower_beq_low c '/' (by decide) (by decide),
    toLower_beq_low c '?' (by decide) (by decide),
    toLower_beq_low c '#' (by decide) (by decide)]

/-- Characters allowed in the host part for the normalizer invariance:
nothing that terminates the netloc, no bracket, no removed control byte. -/
def hostSafeChar (c : Char) : Bool :=
  !stopChar c && c != '[' && c != ']' && c != '\t' && c != '\r' && c != '\n'

/-- Optional www. label in front of a host. -/
def wwwPre (b : Bool) : List Char := if b then cs "www." else []

/-- A URL assembled from a scheme, an optional www. label, a host, a path
and a query string; the shape quantified over by the normalizer claims. -/
def buildUrl (s : List Char) (b : Bool) (h p q : List Char) : List Char :=
  s ++ ':' :: '/' :: '/' :: (wwwPre b ++ h ++ p ++ q)

/-- A scheme character survives the control-byte removal. -/
lemma schemeChar_keep {a : Char} (h : schemeChar a = true) :
    (!(a == '\t' || a == '\r' || a == '\n')) = true := by
  have h1 : a ≠ '\t' := by rintro rfl; exact absurd h (by decide)
  have h2 : a ≠ '\r' := by rintro rfl; exact absurd h (by decide)
  have h3 : a ≠ '\n' := by rintro rfl; exact absurd h (by decide)
  simp [h1, h2, h3]

/-- A scheme character is not a colon. -/
lemma schemeChar_ne_colon {a : Char} (h : schemeChar a = true) : (a == ':') = false := by
  have hne : a ≠ ':' := by rintro rfl; exact absurd h (by decide)
  simp [hne]

/-- A host-safe character survives the control-byte removal. -/
lemma hostSafeChar_keep {a : Char} (h : hostSafeChar a = true) :
    (!(a == '\t' || a == '\r' || a == '\n')) = true := by
  have h1 : a ≠ '\t' := by rintro rfl; exact absurd h (by decide)
  have h2 : a ≠ '\r' := by rintro rfl; exact absurd h (by decide)
  have h3 : a ≠ '\n' := by rintro rfl; exact absurd h (by decide)
  simp [h1, h2, h3]

/-- A host-safe character does not terminate the netloc. -/
lemma hostSafeChar_not_stop {a : Char} (h : hostSafeChar a = true) :
    (!stopChar a) = true := by
  simp only [hostSafeChar, Bool.and_eq_true] at h
  exact h.1.1.1.1.1

/-- Index of the colon terminating a colon-free scheme segment. -/
lemma findIdx_colon (s rest : List Char) (hs : ∀ c ∈ s, (c == ':') = false)
    (i : Nat) :
    List.findIdx? (· == ':') (s ++ ':' :: rest) i = some (i + s.length) := by
  induction s generalizing i with
  | nil => simp [List.findIdx?_cons]
  | cons c t ih =>
    rw [List.cons_append, List.findIdx?_cons,
      if_neg (by rw [hs c (List.mem_cons_self c t)]; exact Bool.false_ne_true)]
    rw [ih (fun a ha => hs a (List.mem_cons_of_mem c ha)) (i + 1)]
    congr 1
    simp
    omega

/-- takeWhile passes over an append whose first block fully satisfies the
predicate. -/
lemma takeWhile_append_all {p : Char → Bool} {l1 : List Char} (l2 : List Char)
    (h : ∀ c ∈ l1, p c = true) :
    List.takeWhile p (l1 ++ l2) = l1 ++ List.takeWhile p l2 := by
  induction l1 with
  | nil => simp
  | cons c t ih =>
    rw [List.cons_append, List.takeWhile_cons, if_pos (h c (List.mem_cons_self c t)),
      ih (fun a ha => h a (List.mem_cons_of_mem c ha)), List.cons_append]

/-- takeWhile of a fully satisfying list is the list itself. -/
lemma takeWhile_all {p : Char → Bool} {l : List Char} (h : ∀ c ∈ l, p c = true) :
    List.takeWhile p l = l := by
  have h2 := takeWhile_append_all [] h
  simpa using h2

/-- A list not containing a character reports contains false. -/
lemma contains_eq_false {l : List Char} {a : Char} (h : a ∉ l) :
    l.contains a = false := by
  simp [List.contains, List.elem_eq_mem, h]

/-- Control-byte removal on an assembled URL touches only the path and
query parts. -/
lemma sanitize_buildUrl (s w h p q : List Char)
    (hs : ∀ c ∈ s, schemeChar c = true)
    (hw : ∀ c ∈ w, hostSafeChar c = true)
    (hh : ∀ c ∈ h, hostSafeChar c = true) :
    sanitizeUrl (s ++ ':' :: '/' :: '/' :: (w ++ h ++ p ++ q))
      = s ++ ':' :: '/' :: '/' :: (w ++ h ++ sanitizeUrl p ++ sanitizeUrl q) := by
  simp only [sanitizeUrl, List.filter_append, List.filter_cons]
  rw [List.filter_eq_self.mpr (fun a ha => schemeChar_keep (hs a ha)),
    List.filter_eq_self.mpr (fun a ha => hostSafeChar_keep (hw a ha)),
    List.filter_eq_self.mpr (fun a ha => hostSafeChar_keep (hh a ha))]
  simp

/-- Reduction of domain_of on a successful netloc. -/
lemma domain_of_ok {u n : List Char} (h : pyNetlocE u = .ok n) :
    domain_of u = (if (cs "www.").isPrefixOf (asciiLower n) then (asciiLower n).drop 4
      else asciiLower n) := by
  unfold domain_of
  rw [h]

/-- Reduction of domain_of on the raising netloc path. -/
lemma domain_of_err {u : List Char} (h : pyNetlocE u = .error ()) :
    domain_of u = [] := by
  unfold domain_of
  rw [h]

/-- Unfold pyNetlocE into its match form. -/
lemma pyNetlocE_eq (u : List Char) :
    pyNetlocE u = match splitSchemeRest (sanitizeUrl u) with
      | '/' :: '/' :: rest =>
        if bracketBad (rest.takeWhile (fun c => !stopChar c)) then .error ()
        else .ok (rest.takeWhile (fun c => !stopChar c))
      | _ => .ok [] := rfl

/-- The scheme splitter drops a well-formed scheme and its colon. -/
lemma splitScheme_append (s rest : List Char)
    (hsA : ∀ c ∈ s, schemeChar c = true)
    (hsH : ∃ c t, s = c :: t ∧ c.isAlpha = true) :
    splitSchemeRest (s ++ ':' :: rest) = rest := by
  obtain ⟨c0, t0, rfl, hA⟩ := hsH
  have hidx : List.findIdx? (· == ':') ((c0 :: t0) ++ ':' :: rest) 0
      = some (0 + (c0 :: t0).length) :=
    findIdx_colon _ _ (fun c hc => schemeChar_ne_colon (hsA c hc)) 0
  have hcond : (((0 + (c0 :: t0).length : Nat) != 0)
      && (match ((c0 :: t0) ++ ':' :: rest).head? with
          | some c => c.isAlpha
          | none => false)
      && (((c0 :: t0) ++ ':' :: rest).take (0 + (c0 :: t0).length)).all schemeChar)
      = true := by
    have h1 : ((0 + (c0 :: t0).length : Nat) != 0) = true := by
      simp
    have h3 : (((c0 :: t0) ++ ':' :: rest).take (0 + (c0 :: t0).length)).all schemeChar
        = true := by
      rw [Nat.zero_add, List.take_left]
      exact List.all_eq_true.mpr hsA
    have h2 : ((c0 :: t0) ++ ':' :: rest).head? = some c0 := by
      rw [List.cons_append]
      rfl
    rw [h1, h3, h2]
    simp [hA]
  unfold splitSchemeRest
  rw [hidx]
  show (if (((0 + (c0 :: t0).length : Nat) != 0)
      && (match ((c0 :: t0) ++ ':' :: rest).head? with
          | some c => c.isAlpha
          | none => false)
      && (((c0 :: t0) ++ ':' :: rest).take (0 + (c0 :: t0).length)).all schemeChar) = true
    then ((c0 :: t0) ++ ':' :: rest).drop (0 + (c0 :: t0).length + 1)
    else (c0 :: t0) ++ ':' :: rest) = rest
  rw [if_pos hcond]
  have hlen : 0 + (c0 :: t0).length + 1 = ((c0 :: t0) ++ [':']).length := by
    simp
  rw [List.append_cons, hlen, List.drop_left]

/-- The netloc of an assembled URL is the optional www. label plus the host. -/
lemma pyNetloc_buildUrl (s h p q : List Char) (b : Bool)
    (hsA : ∀ c ∈ s, schemeChar c = true)
    (hsH : ∃ c t, s = c :: t ∧ c.isAlpha = true)
    (hhS : ∀ c ∈ h, hostSafeChar c = true)
    (hp : p = [] ∨ ∃ t, p = '/' :: t)
    (hq : q = [] ∨ ∃ t, q = '?' :: t) :
    pyNetlocE (buildUrl s b h p q) = .ok (wwwPre b ++ h) := by
  have hwS : ∀ c ∈ wwwPre b, hostSafeChar c = true := by
    cases b
    · simp [wwwPre]
    · have hw1 : wwwPre true = cs "www." := rfl
      rw [hw1]
      decide
  have hbu : buildUrl s b h p q
      = s ++ ':' :: '/' :: '/' :: (wwwPre b ++ h ++ p ++ q) := rfl
  have hsp : splitSchemeRest (sanitizeUrl (buildUrl s b h p q))
      = '/' :: '/' :: (wwwPre b ++ h ++ sanitizeUrl p ++ sanitizeUrl q) := by
    rw [hbu, sanitize_buildUrl s (wwwPre b) h p q hsA hwS hhS]
    exact splitScheme_append s _ hsA hsH
  rw [pyNetlocE_eq, hsp]
  show (if bracketBad ((wwwPre b ++ h ++ sanitizeUrl p ++ sanitizeUrl q).takeWhile
        (fun c => !stopChar c)) then Except.error ()
      else Except.ok ((wwwPre b ++ h ++ sanitizeUrl p ++ sanitizeUrl q).takeWhile
        (fun c => !stopChar c)))
    = Except.ok (wwwPre b ++ h)
  have htw : List.takeWhile (fun c => !stopChar c)
      (wwwPre b ++ h ++ sanitizeUrl p ++ sanitizeUrl q) = wwwPre b ++ h := by
    have hw2 : ∀ c ∈ wwwPre b, (!stopChar c) = true :=
      fun c hc => hostSafeChar_not_stop (hwS c hc)
    have hh2 : ∀ c ∈ h, (!stopChar c) = true :=
      fun c hc => hostSafeChar_not_stop (hhS c hc)
    have htail : List.takeWhile (fun c => !stopChar c)
        (sanitizeUrl p ++ sanitizeUrl q) = [] := by
      rcases hp with rfl | ⟨t, rfl⟩
      · rcases hq with rfl | ⟨t, rfl⟩
        · rfl
        · have hq1 : sanitizeUrl ('?' :: t) = '?' :: sanitizeUrl t := by
            simp [sanitizeUrl]
          have hnil : sanitizeUrl ([] : List Char) = [] := rfl
          rw [hnil, List.nil_append, hq1, List.takeWhile_cons]
          simp [stopChar]
      · have hp1 : sanitizeUrl ('/' :: t) = '/' :: sanitizeUrl t := by
          simp [sanitizeUrl]
        rw [hp1, List.cons_append, List.takeWhile_cons]
        simp [stopChar]
    rw [List.append_assoc, List.append_assoc,
      takeWhile_append_all _ hw2, takeWhile_append_all _ hh2, htail,
      List.append_nil]
  rw [htw]
  have hbr : bracketBad (wwwPre b ++ h) = false := by
    have h1 : '[' ∉ wwwPre b ++ h := by
      intro hm
      rcases List.mem_append.mp hm with hm | hm
      · exact absurd (hwS _ hm) (by decide)
      · exact absurd (hhS _ hm) (by decide)
    have h2 : ']' ∉ wwwPre b ++ h := by
      intro hm
      rcases List.mem_append.mp hm with hm | hm
      · exact absurd (hwS _ hm) (by decide)
      · exact absurd (hhS _ hm) (by decide)
    unfold bracketBad
    rw [contains_eq_false h1, contains_eq_false h2]
    rfl
  rw [if_neg (by rw [hbr]; exact Bool.false_ne_true)]

/-- domain_of on an assembled URL is the lowercased host whenever the host
does not itself begin with a www. label. -/
lemma domain_of_buildUrl (s h p q : List Char) (b : Bool)
    (hsA : ∀ c ∈ s, schemeChar c = true)
    (hsH : ∃ c t, s = c :: t ∧ c.isAlpha = true)
    (hhS : ∀ c ∈ h, hostSafeChar c = true)
    (hw : ((cs "www.").isPrefixOf (asciiLower h)) = false)
    (hp : p = [] ∨ ∃ t, p = '/' :: t)
    (hq : q = [] ∨ ∃ t, q = '?' :: t) :
    domain_of (buildUrl s b h p q) = asciiLower h := by
  rw [domain_of_ok (pyNetloc_buildUrl s h p q b hsA hsH hhS hp hq)]
  cases b
  · have hnil : wwwPre false = ([] : List Char) := rfl
    rw [hnil, List.nil_append]
    exact if_neg (by rw [hw]; exact Bool.false_ne_true)
  · have hwww : wwwPre true = cs "www." := rfl
    rw [hwww]
    have hmap : asciiLower (cs "www." ++ h) = cs "www." ++ asciiLower h := by
      rw [asciiLower, List.map_append]
      congr 1
    have hpre : ((cs "www.").isPrefixOf (cs "www." ++ asciiLower h)) = true :=
      List.isPrefixOf_iff_prefix.mpr (List.prefix_append _ _)
    rw [hmap, if_pos hpre]
    have h4 : (4 : Nat) = (cs "www.").length := rfl
    rw [h4, List.drop_left]

/-- List-level idempotence of ASCII lowercasing. -/
lemma asciiLower_idem (l : List Char) : asciiLower (asciiLower l) = asciiLower l := by
  rw [asciiLower, asciiLower, List.map_map]
  congr 1
  funext c
  exact toLower_idem c

/-- The control-byte removal ignores lowercasing. -/
lemma sanitize_lower (u : List Char) :
    sanitizeUrl (asciiLower u) = asciiLower (sanitizeUrl u) := by
  rw [sanitizeUrl, asciiLower, List.filter_map]
  have hp : ((fun c => !(c == '\t' || c == '\r' || c == '\n')) ∘ Char.toLower)
      = (fun c => !(c == '\t' || c == '\r' || c == '\n')) := by
    funext c
    simp only [Function.comp_apply,
      toLower_beq_low c '\t' (by decide) (by decide),
      toLower_beq_low c '\r' (by decide) (by decide),
      toLower_beq_low c '\n' (by decide) (by decide)]
  rw [hp]
  rfl

/-- The colon search ignores lowercasing. -/
lemma findIdx_lower (u : List Char) (i : Nat) :
    List.findIdx? (· == ':') (asciiLower u) i = List.findIdx? (· == ':') u i := by
  induction u generalizing i with
  | nil => rfl
  | cons c t ih =>
    have hm : asciiLower (c :: t) = Char.toLower c :: asciiLower t := rfl
    rw [hm, List.findIdx?_cons, List.findIdx?_cons,
      toLower_beq_low c ':' (by decide) (by decide)]
    by_cases hc : (c == ':') = true
    · rw [if_pos hc, if_pos hc]
    · rw [if_neg hc, if_neg hc, ih (i + 1)]

/-- The scheme split ignores lowercasing. -/
lemma splitScheme_lower (u : List Char) :
    splitSchemeRest (asciiLower u) = asciiLower (splitSchemeRest u) := by
  unfold splitSchemeRest
  rw [findIdx_lower u 0]
  cases hf : List.findIdx? (· == ':') u 0 with
  | none => rfl
  | some i =>
    show (if (((i : Nat) != 0)
        && (match (asciiLower u).head? with | some c => c.isAlpha | none => false)
        && ((asciiLower u).take i).all schemeChar) = true
      then (asciiLower u).drop (i + 1) else asciiLower u)
      = asciiLower (if (((i : Nat) != 0)
        && (match u.head? with | some c => c.isAlpha | none => false)
        && (u.take i).all schemeChar) = true
      then u.drop (i + 1) else u)
    have hhead : (match (asciiLower u).head? with | some c => c.isAlpha | none => false)
        = (match u.head? with | some c => c.isAlpha | none => false) := by
      cases u with
      | nil => rfl
      | cons c t => exact isAlpha_toLower c
    have htake : ((asciiLower u).take i).all schemeChar = (u.take i).all schemeChar := by
      rw [asciiLower, ← List.map_take, List.all_map]
      congr 1
      funext c
      simp only [Function.comp_apply, schemeChar_toLower]
    rw [hhead, htake]
    by_cases hcond : (((i : Nat) != 0)
        && (match u.head? with | some c => c.isAlpha | none => false)
        && (u.take i).all schemeChar) = true
    · rw [if_pos hcond, if_pos hcond, asciiLower, ← List.map_drop]
      rfl
    · rw [if_neg hcond, if_neg hcond]

/-- Membership of a non-letter character is unchanged by lowercasing. -/
lemma mem_lower_iff {n : List Char} (a : Char) (h1 : a.toNat < 97)
    (h2 : ¬(a.toNat ≥ 65 ∧ a.toNat ≤ 90)) : a ∈ asciiLower n ↔ a ∈ n := by
  rw [asciiLower]
  constructor
  · intro hm
    obtain ⟨c, hc, hce⟩ := List.mem_map.mp hm
    rw [toLower_eq_low a h1 h2] at hce
    rwa [hce] at hc
  · intro hm
    exact List.mem_map.mpr ⟨a, hm, (toLower_eq_low a h1 h2).mpr rfl⟩

/-- contains of a non-letter character is unchanged by lowercasing. -/
lemma contains_lower (n : List Char) (a : Char) (h1 : a.toNat < 97)
    (h2 : ¬(a.toNat ≥ 65 ∧ a.toNat ≤ 90)) :
    (asciiLower n).contains a = n.contains a := by
  show List.elem a (asciiLower n) = List.elem a n
  rw [List.elem_eq_mem, List.elem_eq_mem]
  exact decide_eq_decide.mpr (mem_lower_iff a h1 h2)

/-- The netloc match expressed as a branch on the first two characters. -/
lemma netloc_match_if (l : List Char) :
    (match l with
      | '/' :: '/' :: rest =>
        if bracketBad (rest.takeWhile (fun c => !stopChar c)) then Except.error ()
        else Except.ok (rest.takeWhile (fun c => !stopChar c))
      | _ => (Except.ok [] : Except Unit (List Char)))
    = (if l.take 2 = ['/', '/'] then
        if bracketBad ((l.drop 2).takeWhile (fun c => !stopChar c)) then Except.error ()
        else Except.ok ((l.drop 2).takeWhile (fun c => !stopChar c))
      else Except.ok []) := by
  match l with
  | [] => rfl
  | [c] =>
    rw [if_neg (by simp)]
    split
    · rename_i heq
      exact absurd heq (by simp)
    · rfl
  | c1 :: c2 :: rest =>
    by_cases h1 : c1 = '/' ∧ c2 = '/'
    · obtain ⟨rfl, rfl⟩ := h1
      rw [if_pos (show List.take 2 ('/' :: '/' :: rest) = ['/', '/'] from rfl)]
      rfl
    · rw [if_neg (by
        intro hx
        simp only [List.take, List.cons.injEq] at hx
        exact h1 ⟨hx.1, hx.2.1⟩)]
      split
      · rename_i heq
        injection heq with e1 rest1
        injection rest1 with e2 rest2
        exact absurd ⟨e1, e2⟩ h1
      · rfl

/-- The two leading slashes survive lowercasing in both directions. -/
lemma lower_take2_slash (l : List Char) :
    ((asciiLower l).take 2 = ['/', '/']) ↔ (l.take 2 = ['/', '/']) := by
  rw [asciiLower, ← List.map_take]
  generalize l.take 2 = m
  match m with
  | [] => simp
  | [a] =>
    simp only [List.map_cons, List.map_nil, List.cons.injEq, and_false]
    constructor
    · intro hx
      exact absurd hx.2 (by simp)
    · intro hx
      exact absurd hx.2 (by simp)
  | a :: b :: t =>
    simp only [List.map_cons, List.cons.injEq]
    rw [toLower_eq_low '/' (by decide) (by decide),
      toLower_eq_low '/' (by decide) (by decide)]
    constructor
    · intro hx
      exact ⟨hx.1, hx.2.1, by
        have := hx.2.2
        rcases t with _ | ⟨x, xs⟩
        · rfl
        · exact absurd this (by simp)⟩
    · intro hx
      exact ⟨hx.1, hx.2.1, by rw [hx.2.2]; rfl⟩

/-- A list whose first two entries are slashes is two slashes plus its tail. -/
lemma take2_slash_shape {l : List Char} (h : l.take 2 = ['/', '/']) :
    l = '/' :: '/' :: l.drop 2 := by
  rcases l with _ | ⟨a, _ | ⟨b, t⟩⟩
  · exact absurd h (by simp)
  · exact absurd h (by simp)
  · simp only [List.take, List.cons.injEq] at h
    rw [h.1, h.2.1]
    rfl

/-- The netloc computation commutes with lowercasing the URL. -/
lemma pyNetloc_lower (u : List Char) :
    pyNetlocE (asciiLower u) = Except.map asciiLower (pyNetlocE u) := by
  rw [pyNetlocE_eq, pyNetlocE_eq, sanitize_lower, splitScheme_lower,
    netloc_match_if, netloc_match_if]
  set l := splitSchemeRest (sanitizeUrl u) with hl
  by_cases hc : l.take 2 = ['/', '/']
  · rw [if_pos ((lower_take2_slash l).mpr hc), if_pos hc]
    have hdrop : (asciiLower l).drop 2 = asciiLower (l.drop 2) := by
      rw [asciiLower, ← List.map_drop]
      rfl
    have hpc : ((fun c => !stopChar c) ∘ Char.toLower) = (fun c => !stopChar c) := by
      funext c
      simp only [Function.comp_apply, stopChar_toLower]
    have htk : ((asciiLower l).drop 2).takeWhile (fun c => !stopChar c)
        = asciiLower ((l.drop 2).takeWhile (fun c => !stopChar c)) := by
      rw [hdrop, asciiLower, List.takeWhile_map, hpc]
      rfl
    have hbb : bracketBad (asciiLower ((l.drop 2).takeWhile (fun c => !stopChar c)))
        = bracketBad ((l.drop 2).takeWhile (fun c => !stopChar c)) := by
      unfold bracketBad
      rw [contains_lower _ '[' (by decide) (by decide),
        contains_lower _ ']' (by decide) (by decide)]
    rw [htk, hbb]
    by_cases hb : bracketBad ((l.drop 2).takeWhile (fun c => !stopChar c)) = true
    · rw [if_pos hb, if_pos hb]
      rfl
    · rw [if_neg hb, if_neg hb]
      rfl
  · rw [if_neg (fun hx => hc ((lower_take2_slash l).mp hx)), if_neg hc]
    rfl

/-- domain_of is unchanged by lowercasing its input. -/
lemma domain_of_lower (u : List Char) : domain_of (asciiLower u) = domain_of u := by
  cases hn : pyNetlocE u with
  | error e =>
    cases e
    have hle : pyNetlocE (asciiLower u) = .error () := by
      rw [pyNetloc_lower, hn]
      rfl
    rw [domain_of_err hle, domain_of_err hn]
  | ok n =>
    have hlo : pyNetlocE (asciiLower u) = .ok (asciiLower n) := by
      rw [pyNetloc_lower, hn]
      rfl
    rw [domain_of_ok hlo, domain_of_ok hn, asciiLower_idem]

/-- C5: looks_like_business_site decides by ordered rules with the first
match winning — empty domain rejected, a domain containing a
social/aggregator blocklist entry rejected, a domain equal to or ending
with a search-engine exclude entry rejected, an allow-listed top-level
suffix accepted, everything else rejected — and on the named examples the
facebook page is rejected while acmebuilders.net is accepted; the listed
blocklist entries and the suffix allow-list are exactly as claimed. -/
theorem C5_classifier_ordered_rules :
    (∀ u : List Char, looks_like_business_site u = isBusinessSiteSpec u)
    ∧ looks_like_business_site (cs "https://www.facebook.com/somepage") = false
    ∧ looks_like_business_site (cs "https://acmebuilders.net") = true
    ∧ (∀ x ∈ ([cs "facebook.com", cs "linkedin.com", cs "yelp.com", cs "houzz.com",
        cs "thumbtack.com", cs "pinterest.com", cs "tiktok.com", cs "youtube.com",
        cs "bbb.org"] : List (List Char)), x ∈ SOCIAL_AGG_DOMAINS)
    ∧ ALLOWED_TLDS = [cs ".com", cs ".net", cs ".org", cs ".io", cs ".co", cs ".us"] := by
  refine ⟨fun u => ?_, by decide, by decide, by decide, rfl⟩
  simp only [looks_like_business_site, isBusinessSiteSpec]
  cases h1 : (domain_of u).isEmpty <;>
    cases h2 : SOCIAL_AGG_DOMAINS.any (fun s => isSubstr s (domain_of u)) <;>
      cases h3 : EXCLUDE_DOMAINS.any
          (fun x => x.isSuffixOf (domain_of u) || domain_of u == x) <;>
        cases h4 : ALLOWED_TLDS.any (fun t => t.isSuffixOf (domain_of u)) <;>
          simp [h1, h2, h3, h4]

/-- C8 (amended): domain_of is total and never raises — it returns the
lowercased netloc with one leading www. label stripped, and empty both on
the raising parse path and when the URL has no netloc; two URLs assembled
from the same host that differ only in scheme, presence of a www. label,
path or query string normalize to the same value, the lowercased host,
provided the host does not itself begin with www. (the counterexample shows
the proviso is necessary). -/
theorem C8_domain_of_normalizer :
    (∀ u, pyNetlocE u = .error () → domain_of u = [])
    ∧ (∀ u, pyNetlocE u = .ok [] → domain_of u = [])
    ∧ domain_of (cs "not a url") = []
    ∧ domain_of (cs "http://[::1") = []
    ∧ (∀ x y h p1 p2 q1 q2 (b1 b2 : Bool),
        (∀ c ∈ x, schemeChar c = true) → (∃ c t, x = c :: t ∧ c.isAlpha = true) →
        (∀ c ∈ y, schemeChar c = true) → (∃ c t, y = c :: t ∧ c.isAlpha = true) →
        (∀ c ∈ h, hostSafeChar c = true) →
        ((cs "www.").isPrefixOf (asciiLower h)) = false →
        (p1 = [] ∨ ∃ t, p1 = '/' :: t) → (p2 = [] ∨ ∃ t, p2 = '/' :: t) →
        (q1 = [] ∨ ∃ t, q1 = '?' :: t) → (q2 = [] ∨ ∃ t, q2 = '?' :: t) →
        domain_of (buildUrl x b1 h p1 q1) = asciiLower h
          ∧ domain_of (buildUrl x b1 h p1 q1) = domain_of (buildUrl y b2 h p2 q2)) := by
  refine ⟨?_, ?_, by decide, by decide, ?_⟩
  · intro u hu
    exact domain_of_err hu
  · intro u hu
    rw [domain_of_ok hu]
    decide
  · intro x y h p1 p2 q1 q2 b1 b2 hx1 hx2 hy1 hy2 hhS hw hp1 hp2 hq1 hq2
    have e1 := domain_of_buildUrl x h p1 q1 b1 hx1 hx2 hhS hw hp1 hq1
    have e2 := domain_of_buildUrl y h p2 q2 b2 hy1 hy2 hhS hw hp2 hq2
    exact ⟨e1, e1.trans e2.symm⟩

/-- Witness for C8: a concrete pair of URLs differing in scheme, www.
label, path and query normalizing identically to the lowercased host. -/
theorem C8_domain_of_normalizer_witness :
    domain_of (buildUrl (cs "https") true (cs "Acme.com") (cs "/x") (cs "?q=1"))
        = asciiLower (cs "Acme.com")
    ∧ domain_of (buildUrl (cs "https") true (cs "Acme.com") (cs "/x") (cs "?q=1"))
        = domain_of (buildUrl (cs "http") false (cs "Acme.com") [] []) :=
  C8_domain_of_normalizer.2.2.2.2 (cs "https") (cs "http") (cs "Acme.com")
    (cs "/x") [] (cs "?q=1") [] true false (by decide)
    ⟨'h', cs "ttps", rfl, by decide⟩ (by decide) ⟨'h', cs "ttp", rfl, by decide⟩
    (by decide) (by decide) (Or.inr ⟨cs "x", rfl⟩) (Or.inl rfl)
    (Or.inr ⟨cs "q=1", rfl⟩) (Or.inl rfl)

/-- Counterexample for C8 as stated: the two URLs differ only by one www.
label and share the registrable domain example.com, yet domain_of maps
them to different values, because exactly one leading www. is stripped. -/
theorem C8_counterexample :
    domain_of (cs "http://www.www.example.com") = cs "www.example.com"
    ∧ domain_of (cs "http://www.example.com") = cs "example.com"
    ∧ domain_of (cs "http://www.www.example.com")
        ≠ domain_of (cs "http://www.example.com") := by
  decide

/-- C10: the output of domain_of is entirely lowercase; at most one
leading www. label is removed from the netloc; and URLs equal up to letter
case give the same deduplication key and the same classification. -/
theorem C10_domain_of_lowercase :
    (∀ u, asciiLower (domain_of u) = domain_of u)
    ∧ (∀ u n, pyNetlocE u = .ok n →
        domain_of u = asciiLower n ∨ cs "www." ++ domain_of u = asciiLower n)
    ∧ domain_of (cs "http://WWW.WWW.X.COM") = cs "www.x.com"
    ∧ (∀ v w, asciiLower v = asciiLower w →
        domain_of v = domain_of w
          ∧ looks_like_business_site v = looks_like_business_site w) := by
  refine ⟨?_, ?_, by decide, ?_⟩
  · intro u
    cases hn : pyNetlocE u with
    | error e =>
      cases e
      rw [domain_of_err hn]
      rfl
    | ok n =>
      rw [domain_of_ok hn]
      by_cases hpre : ((cs "www.").isPrefixOf (asciiLower n)) = true
      · rw [if_pos hpre]
        have h0 : asciiLower ((asciiLower n).drop 4)
            = (asciiLower (asciiLower n)).drop 4 := by
          rw [asciiLower, List.map_drop]
          rfl
        rw [h0, asciiLower_idem]
      · rw [if_neg hpre]
        exact asciiLower_idem n
  · intro u n hn
    rw [domain_of_ok hn]
    by_cases hpre : ((cs "www.").isPrefixOf (asciiLower n)) = true
    · right
      rw [if_pos hpre]
      obtain ⟨t, ht⟩ := List.isPrefixOf_iff_prefix.mp hpre
      rw [← ht]
      have h4 : List.drop 4 (cs "www." ++ t) = t := rfl
      rw [h4]
    · left
      rw [if_neg hpre]
  · intro v w he
    have hd : domain_of v = domain_of w := by
      rw [← domain_of_lower v, ← domain_of_lower w, he]
    refine ⟨hd, ?_⟩
    unfold looks_like_business_site
    rw [hd]

/-- Witness for C10: two URLs differing only in letter case share the
deduplication key and the classifier verdict. -/
theorem C10_domain_of_lowercase_witness :
    domain_of (cs "HTTP://ACME.COM/A") = domain_of (cs "http://acme.com/a")
    ∧ looks_like_business_site (cs "HTTP://ACME.COM/A")
        = looks_like_business_site (cs "http://acme.com/a") :=
  C10_domain_of_lowercase.2.2.2 (cs "HTTP://ACME.COM/A") (cs "http://acme.com/a")
    (by decide)

/-- Reduction of upsert_lead on a present email. -/
lemma upsert_lead_some (cfg : LeadCfg) (mx : List Char → MxResponse)
    (leads : List Lead) (name : Option (List Char)) (email website : List Char)
    (phone : Option (List Char)) (source : List Char) :
    upsert_lead cfg mx leads name (some email) website phone source
      = (if email.isEmpty then leads
         else if cfg.skip_generic && is_generic_email email then leads
         else if cfg.verify_mx && !verify_email_mx (mx email) then leads
         else if (leads.map (fun l => asciiLower l.email)).contains (asciiLower email)
           then leads
         else leads ++ [{ company := (pyStrip (name.getD [])).take 120,
                          email := pyStrip email, website := website,
                          phone := pyStrip (phone.getD []), source := source }]) := rfl

/-- C3 (amended): upsert_lead rejects, leaving the table unchanged, exactly
when the email is absent or empty, or the active skip-generic filter
matches the local part, or the active MX filter reports no record, or the
email is already present case-insensitively; otherwise it appends exactly
one new row built from the stripped inputs.  It performs no syntactic
validation and returns only the new table. -/
theorem C3_upsert_rules (cfg : LeadCfg) (mx : List Char → MxResponse)
    (leads : List Lead) (name : Option (List Char)) (email website : List Char)
    (phone : Option (List Char)) (source : List Char) :
    upsert_lead cfg mx leads name none website phone source = leads
    ∧ (email.isEmpty = true
        ∨ (cfg.skip_generic = true ∧ is_generic_email email = true)
        ∨ (cfg.verify_mx = true ∧ verify_email_mx (mx email) = false)
        ∨ (leads.map (fun l => asciiLower l.email)).contains (asciiLower email) = true →
       upsert_lead cfg mx leads name (some email) website phone source = leads)
    ∧ (¬(email.isEmpty = true
        ∨ (cfg.skip_generic = true ∧ is_generic_email email = true)
        ∨ (cfg.verify_mx = true ∧ verify_email_mx (mx email) = false)
        ∨ (leads.map (fun l => asciiLower l.email)).contains (asciiLower email) = true) →
       upsert_lead cfg mx leads name (some email) website phone source
         = leads ++ [{ company := (pyStrip (name.getD [])).take 120,
                       email := pyStrip email, website := website,
                       phone := pyStrip (phone.getD []), source := source }]) := by
  refine ⟨rfl, ?_, ?_⟩
  · intro hrej
    rw [upsert_lead_some]
    rcases hrej with h | h | h | h
    · rw [if_pos h]
    · by_cases h1 : email.isEmpty = true
      · rw [if_pos h1]
      · rw [if_neg h1, if_pos (by rw [h.1, h.2]; rfl)]
    · by_cases h1 : email.isEmpty = true
      · rw [if_pos h1]
      · rw [if_neg h1]
        by_cases h2 : (cfg.skip_generic && is_generic_email email) = true
        · rw [if_pos h2]
        · rw [if_neg h2, if_pos (by rw [h.1, h.2]; rfl)]
    · by_cases h1 : email.isEmpty = true
      · rw [if_pos h1]
      · rw [if_neg h1]
        by_cases h2 : (cfg.skip_generic && is_generic_email email) = true
        · rw [if_pos h2]
        · rw [if_neg h2]
          by_cases h3 : (cfg.verify_mx && !verify_email_mx (mx email)) = true
          · rw [if_pos h3]
          · rw [if_neg h3, if_pos h]
  · intro hins
    push_neg at hins
    obtain ⟨h1, h2, h3, h4⟩ := hins
    rw [upsert_lead_some, if_neg h1,
      if_neg (by
        intro hx
        rw [Bool.and_eq_true] at hx
        exact h2 hx.1 hx.2),
      if_neg (by
        intro hx
        rw [Bool.and_eq_true] at hx
        have hv : verify_email_mx (mx email) = false := by
          have h5 := hx.2
          revert h5
          cases verify_email_mx (mx email) <;> simp
        exact h3 hx.1 hv),
      if_neg h4]

/-- Counterexample for C3 as stated: the email foo@bar fails the EMAIL_RE
syntactic check, yet upsert_lead inserts it — the function performs no
syntactic validation of its own. -/
theorem C3_counterexample :
    emailMatch (cs "foo@bar") = false
    ∧ upsert_lead ⟨true, false⟩ (fun _ => MxResponse.ok true) [] none
        (some (cs "foo@bar")) (cs "https://x.com") none (cs "manual")
      = [{ company := [], email := cs "foo@bar", website := cs "https://x.com",
           phone := [], source := cs "manual" }] := by
  decide

/-- Witness for C3: a rejected duplicate leaves the table unchanged and a
fresh address is appended as one new row. -/
theorem C3_upsert_rules_witness :
    upsert_lead ⟨false, false⟩ (fun _ => MxResponse.ok true)
        [{ company := [], email := cs "a@b.com", website := [], phone := [],
           source := [] }] none (some (cs "A@B.com")) [] none (cs "m")
      = [{ company := [], email := cs "a@b.com", website := [], phone := [],
           source := [] }] :=
  (C3_upsert_rules ⟨false, false⟩ (fun _ => MxResponse.ok true)
    [{ company := [], email := cs "a@b.com", website := [], phone := [],
       source := [] }] none (cs "A@B.com") [] none (cs "m")).2.1
    (Or.inr (Or.inr (Or.inr (by decide))))

/-- C9: MX verification fails open — a definite empty answer from the
resolver is the only outcome the filter rejects on, while a non-OK status
or a raised exception makes verify_email_mx answer true so the email
proceeds past the MX rule. -/
theorem C9_mx_fail_open (cfg : LeadCfg) (mx : List Char → MxResponse)
    (leads : List Lead) (name : Option (List Char)) (email website : List Char)
    (phone : Option (List Char)) (source : List Char)
    (hcfg : cfg.verify_mx = true) :
    (∀ a, verify_email_mx (.ok a) = a)
    ∧ verify_email_mx .httpError = true
    ∧ verify_email_mx .exn = true
    ∧ (mx email = .ok false →
        upsert_lead cfg mx leads name (some email) website phone source = leads)
    ∧ ((mx email = .httpError ∨ mx email = .exn) →
        verify_email_mx (mx email) = true
        ∧ (email.isEmpty = false →
            (cfg.skip_generic && is_generic_email email) = false →
            (leads.map (fun l => asciiLower l.email)).contains (asciiLower email)
              = false →
            upsert_lead cfg mx leads name (some email) website phone source
              = leads ++ [{ company := (pyStrip (name.getD [])).take 120,
                            email := pyStrip email, website := website,
                            phone := pyStrip (phone.getD []), source := source }])) := by
  refine ⟨fun a => rfl, rfl, rfl, ?_, ?_⟩
  · intro hmx
    rw [upsert_lead_some]
    by_cases h1 : email.isEmpty = true
    · rw [if_pos h1]
    · rw [if_neg h1]
      by_cases h2 : (cfg.skip_generic && is_generic_email email) = true
      · rw [if_pos h2]
      · rw [if_neg h2, if_pos (by rw [hcfg, hmx]; rfl)]
  · intro hmx
    have hv : verify_email_mx (mx email) = true := by
      rcases hmx with h | h <;> rw [h] <;> rfl
    refine ⟨hv, ?_⟩
    intro hemp hgen hdup
    rw [upsert_lead_some, if_neg (by rw [hemp]; exact Bool.false_ne_true),
      if_neg (by rw [hgen]; exact Bool.false_ne_true),
      if_neg (by rw [hv]; simp),
      if_neg (by rw [hdup]; exact Bool.false_ne_true)]

/-- Witness for C9: with the MX filter on and a resolver that raises, a
fresh address is inserted. -/
theorem C9_mx_fail_open_witness :
    upsert_lead ⟨false, true⟩ (fun _ => MxResponse.exn) [] none
        (some (cs "a@x.com")) (cs "w") none (cs "serp")
      = [{ company := [], email := cs "a@x.com", website := cs "w", phone := [],
           source := cs "serp" }] :=
  (((C9_mx_fail_open ⟨false, true⟩ (fun _ => MxResponse.exn) [] none
    (cs "a@x.com") (cs "w") none (cs "serp") rfl).2.2.2.2 (Or.inr rfl)).2
    (by decide) (by decide) (by decide)).trans (by decide)

/-- A page whose only content is a mailto anchor carrying a query part
separated by a space, the shape that leaves a trailing space on the
extracted address. -/
def mailtoWsDoc : HtmlDoc :=
  { mailtoHrefs := [cs "mailto:a@b.com ?subject=hi"], phoneNodeTexts := [],
    phoneTextMatches := [], text := [], title := none, h1Text := none,
    orgText := none }

/-- C1: the case-insensitive uniqueness invariant breaks on the code.  The
extractor turns the fixture mailto into the address with a trailing space;
upsert_lead compares that raw string against the lowered table, misses the
existing row, and then stores the stripped string — leaving two rows whose
emails are identical.  The third conjunct shows the case-only duplicate of
the claim text is indeed collapsed to the first accepted row, so the
failure is specifically the strip-after-check slip. -/
theorem C1_email_key_code_bug :
    (extract_company_info_from_html mailtoWsDoc).2.1 = some (cs "a@b.com ")
    ∧ (processSite ⟨false, false⟩ (fun _ => MxResponse.ok true)
        (fun _ => some mailtoWsDoc) false
        (upsert_lead ⟨false, false⟩ (fun _ => MxResponse.ok true) [] none
          (some (cs "a@b.com")) (cs "https://b.com") none (cs "manual"))
        (cs "https://b.com")).map (fun l => l.email)
      = [cs "a@b.com", cs "a@b.com"]
    ∧ (upsert_lead ⟨false, false⟩ (fun _ => MxResponse.ok true)
        (upsert_lead ⟨false, false⟩ (fun _ => MxResponse.ok true) [] none
          (some (cs "Sales@Acme.com")) (cs "w") none (cs "m"))
        none (some (cs "sales@acme.com")) (cs "w") none (cs "m")).map
          (fun l => l.email)
      = [cs "Sales@Acme.com"] := by
  refine ⟨by decide, by decide, by decide⟩

/-- A page whose visible text carries only a placeholder address. -/
def noiseDoc : HtmlDoc :=
  { mailtoHrefs := [], phoneNodeTexts := [], phoneTextMatches := [],
    text := cs "reach us: test@example.com today", title := none, h1Text := none,
    orgText := none }

/-- Counterexample for C7 as stated: the extractor has no noise filtering
and happily returns the placeholder address test@example.com. -/
theorem C7_counterexample :
    (extract_company_info_from_html noiseDoc).2.1 = some (cs "test@example.com") := by
  decide

/-- A page holding both a mailto target with a query part and a visible
address, to exhibit the preference order. -/
def prefDoc : HtmlDoc :=
  { mailtoHrefs := [cs "mailto:x@y.com?subject=z"], phoneNodeTexts := [],
    phoneTextMatches := [], text := cs "or other@text.com", title := none,
    h1Text := none, orgText := none }

/-- C7 (amended): the chosen email prefers the first truthy mailto target —
stripped of the mailto: text, filtered by EMAIL_RE.match and cut before a
question mark — and falls back to the first EMAIL_RE match of the visible
text; extraction is total and absence of any match yields an empty field;
no placeholder or image-marker filtering takes place. -/
theorem C7_extract_email_amended :
    (∀ doc : HtmlDoc, (extract_company_info_from_html doc).2.1
      = (match firstNonEmptyL (((doc.mailtoHrefs.map
            (fun v => pyStrip (pyReplace (cs "mailto:") [] v))).filter
              emailMatch).map (fun e => e.takeWhile (· != '?'))) with
         | some e => some e
         | none => firstNonEmptyL (emailFindall doc.text)))
    ∧ (∀ doc : HtmlDoc, doc.mailtoHrefs = [] → emailFindall doc.text = [] →
        (extract_company_info_from_html doc).2.1 = none)
    ∧ (extract_company_info_from_html prefDoc).2.1 = some (cs "x@y.com")
    ∧ extract_company_info_from_html
        { mailtoHrefs := [], phoneNodeTexts := [], phoneTextMatches := [],
          text := [], title := none, h1Text := none, orgText := none }
      = (none, none, none) := by
  have hmain : ∀ doc : HtmlDoc, (extract_company_info_from_html doc).2.1
      = (match firstNonEmptyL (((doc.mailtoHrefs.map
            (fun v => pyStrip (pyReplace (cs "mailto:") [] v))).filter
              emailMatch).map (fun e => e.takeWhile (· != '?'))) with
         | some e => some e
         | none => firstNonEmptyL (emailFindall doc.text)) := fun doc => rfl
  refine ⟨hmain, ?_, by decide, by decide⟩
  intro doc hm ht
  rw [hmain doc, hm, ht]
  rfl

/-- Whether probing one suffix of a site yields a truthy email. -/
def probeSucc (fetch : List Char → Option HtmlDoc) (base path : List Char) : Bool :=
  truthyS (extract_company_info fetch (pyRstripSlash base ++ path)).2.1

/-- Reduction of probePages on a cons of suffixes. -/
lemma probePages_cons (fetch : List Char → Option HtmlDoc) (base path : List Char)
    (rest : List (List Char)) :
    probePages fetch base (path :: rest)
      = (if probeSucc fetch base path then
          ([pyRstripSlash base ++ path],
           some (extract_company_info fetch (pyRstripSlash base ++ path)))
        else ((pyRstripSlash base ++ path) :: (probePages fetch base rest).1,
              (probePages fetch base rest).2)) := rfl

/-- C2: the probe walks the fixed ordered suffix list, stops at the first
page whose extraction yields a truthy email and fetches nothing after it; a
failed fetch is merely a non-success and the loop continues; when no suffix
succeeds every page is fetched, no result is produced and the site adds no
lead; and the suffix order is exactly root, /contact, /contact-us,
/contactus, /about, /team, /contacts. -/
theorem C2_probe_stops_first (fetch : List Char → Option HtmlDoc) (base : List Char) :
    (∀ pre s post, (∀ x ∈ pre, probeSucc fetch base x = false) →
        probeSucc fetch base s = true →
        probePages fetch base (pre ++ s :: post)
          = ((pre ++ [s]).map (fun x => pyRstripSlash base ++ x),
             some (extract_company_info fetch (pyRstripSlash base ++ s))))
    ∧ (∀ l, (∀ x ∈ l, probeSucc fetch base x = false) →
        probePages fetch base l = (l.map (fun x => pyRstripSlash base ++ x), none))
    ∧ (∀ cfg mx un leads, (∀ x ∈ pageSuffixes, probeSucc fetch base x = false) →
        processSite cfg mx fetch un leads base = leads)
    ∧ (∀ path, fetch (pyRstripSlash base ++ path) = none →
        probeSucc fetch base path = false)
    ∧ pageSuffixes = [[], cs "/contact", cs "/contact-us", cs "/contactus",
        cs "/about", cs "/team", cs "/contacts"] := by
  have hnone : ∀ l, (∀ x ∈ l, probeSucc fetch base x = false) →
      probePages fetch base l = (l.map (fun x => pyRstripSlash base ++ x), none) := by
    intro l
    induction l with
    | nil => intro _; rfl
    | cons x t ih =>
      intro hall
      rw [probePages_cons,
        if_neg (by rw [hall x (List.mem_cons_self x t)]; exact Bool.false_ne_true),
        ih (fun a ha => hall a (List.mem_cons_of_mem x ha))]
      rfl
  refine ⟨?_, hnone, ?_, ?_, rfl⟩
  · intro pre
    induction pre with
    | nil =>
      intro s post _ hs
      rw [List.nil_append, probePages_cons, if_pos hs]
      rfl
    | cons x t ih =>
      intro s post hall hs
      rw [List.cons_append, probePages_cons,
        if_neg (by rw [hall x (List.mem_cons_self x t)]; exact Bool.false_ne_true),
        ih s post (fun a ha => hall a (List.mem_cons_of_mem x ha)) hs]
      rfl
  · intro cfg mx un leads hall
    have h2 : (probePages fetch base pageSuffixes).2 = none := by
      rw [hnone pageSuffixes hall]
    show (match (probePages fetch base pageSuffixes).2 with
      | none => leads
      | some res => upsert_lead cfg mx leads res.1 res.2.1 base res.2.2
          (if un then cs "serp+unlocker" else cs "serp")) = leads
    rw [h2]
  · intro path hf
    unfold probeSucc extract_company_info
    rw [hf]
    rfl

/-- Root page of the probing fixture: no address anywhere. -/
def acmeRootDoc : HtmlDoc :=
  { mailtoHrefs := [], phoneNodeTexts := [], phoneTextMatches := [],
    text := cs "welcome to acme builders", title := some (cs "Acme"),
    h1Text := none, orgText := none }

/-- Contact page of the probing fixture: a single mailto anchor. -/
def acmeContactDoc : HtmlDoc :=
  { mailtoHrefs := [cs "mailto:sales@acme.com"], phoneNodeTexts := [],
    phoneTextMatches := [], text := [], title := some (cs "Contact"),
    h1Text := none, orgText := none }

/-- Fetch oracle of the probing fixture: only the root and the contact page
resolve, everything else fails. -/
def acmeFetch (u : List Char) : Option HtmlDoc :=
  if u == cs "https://acme.com" then some acmeRootDoc
  else if u == cs "https://acme.com/contact" then some acmeContactDoc
  else none

/-- Witness for C2: on the fixture where only the contact page holds the
mailto, the probe fetches the root and the contact page, returns the
extraction whose email is sales@acme.com, and never fetches /about. -/
theorem C2_probe_stops_first_witness :
    probePages acmeFetch (cs "https://acme.com") pageSuffixes
      = ([cs "https://acme.com", cs "https://acme.com/contact"],
         some (extract_company_info acmeFetch (cs "https://acme.com/contact")))
    ∧ (extract_company_info acmeFetch (cs "https://acme.com/contact")).2.1
      = some (cs "sales@acme.com")
    ∧ (cs "https://acme.com/about")
        ∉ (probePages acmeFetch (cs "https://acme.com") pageSuffixes).1 := by
  have hps : pageSuffixes = [[]] ++ cs "/contact" ::
      [cs "/contact-us", cs "/contactus", cs "/about", cs "/team",
       cs "/contacts"] := rfl
  have h := (C2_probe_stops_first acmeFetch (cs "https://acme.com")).1
    [[]] (cs "/contact")
    [cs "/contact-us", cs "/contactus", cs "/about", cs "/team", cs "/contacts"]
    (by decide) (by decide)
  refine ⟨?_, by decide, ?_⟩
  · rw [hps, h]
    decide
  · rw [hps, h]
    decide

/-- The key the deduplication dictionary uses: the domain, or the raw URL
when the domain is empty. -/
def dedupeKey (u : List Char) : List Char :=
  if (domain_of u).isEmpty then u else domain_of u

/-- Whether a key equals or ends with a search-engine exclude entry. -/
def keyExcluded (d : List Char) : Bool :=
  EXCLUDE_DOMAINS.any (fun x => x.isSuffixOf d || d == x)

/-- Reduction of one deduplication step into key form. -/
lemma dedupeStep_eq (acc : List (List Char × List Char)) (u : List Char) :
    dedupeStep acc u
      = (if acc.any (fun kv => kv.1 == dedupeKey u) then acc
         else if keyExcluded (dedupeKey u) then acc
         else acc ++ [(dedupeKey u, u)]) := rfl

/-- Entries of the accumulator survive the whole fold. -/
lemma dedupe_mono (l : List (List Char)) :
    ∀ acc kv, kv ∈ acc → kv ∈ l.foldl dedupeStep acc := by
  induction l with
  | nil =>
    intro acc kv h
    exact h
  | cons u t ih =>
    intro acc kv h
    rw [List.foldl_cons]
    apply ih
    rw [dedupeStep_eq]
    split_ifs with h1 h2
    · exact h
    · exact h
    · exact List.mem_append_left _ h

/-- The values of the fold form a subsequence of the accumulator values
followed by the inputs. -/
lemma dedupe_sublist (l : List (List Char)) :
    ∀ acc, ((l.foldl dedupeStep acc).map Prod.snd).Sublist (acc.map Prod.snd ++ l) := by
  induction l with
  | nil =>
    intro acc
    simp
  | cons u t ih =>
    intro acc
    rw [List.foldl_cons]
    refine (ih (dedupeStep acc u)).trans ?_
    rw [dedupeStep_eq]
    split_ifs with h1 h2
    · exact List.Sublist.append_left (List.sublist_cons_self u t) _
    · exact List.Sublist.append_left (List.sublist_cons_self u t) _
    · rw [List.map_append]
      have he : (acc.map Prod.snd ++ [(dedupeKey u, u)].map Prod.snd) ++ t
          = acc.map Prod.snd ++ u :: t := by
        simp
      rw [he]

/-- The fold never duplicates a key. -/
lemma dedupe_keys_nodup (l : List (List Char)) :
    ∀ acc, (acc.map Prod.fst).Nodup → ((l.foldl dedupeStep acc).map Prod.fst).Nodup := by
  induction l with
  | nil =>
    intro acc h
    exact h
  | cons u t ih =>
    intro acc h
    rw [List.foldl_cons]
    apply ih
    rw [dedupeStep_eq]
    split_ifs with h1 h2
    · exact h
    · exact h
    · rw [List.map_append, List.nodup_append]
      refine ⟨h, List.nodup_singleton _, ?_⟩
      intro a ha hb
      have hb2 : a = dedupeKey u := by
        simpa using hb
      obtain ⟨kv, hkv, hfst⟩ := List.mem_map.mp ha
      apply h1
      rw [List.any_eq_true]
      exact ⟨kv, hkv, by rw [hfst, hb2]; exact beq_self_eq_true _⟩

/-- Every entry of the fold is keyed by its value's deduplication key, its
value comes from the input, and its key is not excluded. -/
lemma dedupe_entries (l : List (List Char)) :
    ∀ acc kv, kv ∈ l.foldl dedupeStep acc →
      kv ∈ acc ∨ (kv.1 = dedupeKey kv.2 ∧ kv.2 ∈ l ∧ keyExcluded kv.1 = false) := by
  induction l with
  | nil =>
    intro acc kv h
    exact Or.inl h
  | cons u t ih =>
    intro acc kv h
    rw [List.foldl_cons] at h
    rcases ih _ kv h with hin | ⟨h1, h2, h3⟩
    · rw [dedupeStep_eq] at hin
      split_ifs at hin with hc1 hc2
      · exact Or.inl hin
      · exact Or.inl hin
      · rcases List.mem_append.mp hin with hin | hin
        · exact Or.inl hin
        · have hkv : kv = (dedupeKey u, u) := by
            simpa using hin
          subst hkv
          refine Or.inr ⟨rfl, List.mem_cons_self u t, ?_⟩
          revert hc2
          cases keyExcluded (dedupeKey u) <;> simp
    · exact Or.inr ⟨h1, List.mem_cons_of_mem u h2, h3⟩

/-- Every non-excluded input key is present among the fold's keys. -/
lemma dedupe_covers (l : List (List Char)) :
    ∀ acc u, u ∈ l → keyExcluded (dedupeKey u) = false →
      dedupeKey u ∈ (l.foldl dedupeStep acc).map Prod.fst := by
  induction l with
  | nil =>
    intro acc u h _
    exact absurd h (List.not_mem_nil u)
  | cons v t ih =>
    intro acc u h hex
    rw [List.foldl_cons]
    rcases List.mem_cons.mp h with rfl | h2
    · have hstep : dedupeKey u ∈ (dedupeStep acc u).map Prod.fst := by
        rw [dedupeStep_eq]
        by_cases hc1 : (acc.any (fun kv => kv.1 == dedupeKey u)) = true
        · rw [if_pos hc1]
          obtain ⟨kv, hkv, hbeq⟩ := List.any_eq_true.mp hc1
          exact List.mem_map.mpr ⟨kv, hkv, beq_iff_eq.mp hbeq⟩
        · rw [if_neg hc1, if_neg (by rw [hex]; exact Bool.false_ne_true),
            List.map_append]
          exact List.mem_append_right _ (by simp)
      obtain ⟨kv, hkv, hfst⟩ := List.mem_map.mp hstep
      exact List.mem_map.mpr ⟨kv, dedupe_mono t _ kv hkv, hfst⟩
    · exact ih (dedupeStep acc v) u h2 hex

/-- The deduplication dictionary as the amended claim words it: walk the
hits in first-occurrence order carrying the set of keys already seen; a
hit is emitted exactly when its key is new and not excluded, so the first
occurrence of each key wins and later occurrences are skipped. -/
def dedupeSpec : List (List Char) → List (List Char) → List (List Char × List Char)
  | _, [] => []
  | seen, u :: t =>
    if dedupeKey u ∈ seen then dedupeSpec seen t
    else if keyExcluded (dedupeKey u) then dedupeSpec seen t
    else (dedupeKey u, u) :: dedupeSpec (dedupeKey u :: seen) t

/-- Reduction of dedupeSpec on a cons of hits. -/
lemma dedupeSpec_cons (seen : List (List Char)) (u : List Char)
    (t : List (List Char)) :
    dedupeSpec seen (u :: t)
      = (if dedupeKey u ∈ seen then dedupeSpec seen t
         else if keyExcluded (dedupeKey u) then dedupeSpec seen t
         else (dedupeKey u, u) :: dedupeSpec (dedupeKey u :: seen) t) := rfl

/-- The dictionary membership test of the loop is key membership. -/
lemma any_key_iff (acc : List (List Char × List Char)) (d : List Char) :
    (acc.any (fun kv => kv.1 == d)) = true ↔ d ∈ acc.map Prod.fst := by
  rw [List.any_eq_true]
  constructor
  · rintro ⟨kv, hkv, hb⟩
    exact List.mem_map.mpr ⟨kv, hkv, beq_iff_eq.mp hb⟩
  · intro hm
    obtain ⟨kv, hkv, he⟩ := List.mem_map.mp hm
    exact ⟨kv, hkv, beq_iff_eq.mpr he⟩

/-- dedupeSpec only consults the seen set through membership. -/
lemma dedupeSpec_congr (l : List (List Char)) :
    ∀ s1 s2, (∀ d, d ∈ s1 ↔ d ∈ s2) → dedupeSpec s1 l = dedupeSpec s2 l := by
  induction l with
  | nil =>
    intro s1 s2 _
    rfl
  | cons u t ih =>
    intro s1 s2 h
    rw [dedupeSpec_cons, dedupeSpec_cons]
    by_cases h1 : dedupeKey u ∈ s1
    · rw [if_pos h1, if_pos ((h _).mp h1)]
      exact ih s1 s2 h
    · rw [if_neg h1, if_neg (fun hx => h1 ((h _).mpr hx))]
      by_cases h2 : keyExcluded (dedupeKey u) = true
      · rw [if_pos h2, if_pos h2]
        exact ih s1 s2 h
      · rw [if_neg h2, if_neg h2]
        rw [ih (dedupeKey u :: s1) (dedupeKey u :: s2) (by
          intro d
          rw [List.mem_cons, List.mem_cons, h d])]

/-- The loop's fold computes exactly the first-wins dictionary. -/
lemma dedupe_foldl_spec (l : List (List Char)) :
    ∀ acc, l.foldl dedupeStep acc = acc ++ dedupeSpec (acc.map Prod.fst) l := by
  induction l with
  | nil =>
    intro acc
    show acc = acc ++ dedupeSpec (acc.map Prod.fst) []
    rw [show dedupeSpec (acc.map Prod.fst) [] = [] from rfl, List.append_nil]
  | cons u t ih =>
    intro acc
    rw [List.foldl_cons]
    by_cases h1 : (acc.any (fun kv => kv.1 == dedupeKey u)) = true
    · have hstep : dedupeStep acc u = acc := by
        rw [dedupeStep_eq, if_pos h1]
      rw [hstep, ih acc, dedupeSpec_cons, if_pos ((any_key_iff acc _).mp h1)]
    · have hnm : dedupeKey u ∉ acc.map Prod.fst :=
        fun hm => h1 ((any_key_iff acc _).mpr hm)
      by_cases h2 : keyExcluded (dedupeKey u) = true
      · have hstep : dedupeStep acc u = acc := by
          rw [dedupeStep_eq, if_neg h1, if_pos h2]
        rw [hstep, ih acc, dedupeSpec_cons, if_neg hnm, if_pos h2]
      · have hstep : dedupeStep acc u = acc ++ [(dedupeKey u, u)] := by
          rw [dedupeStep_eq, if_neg h1, if_neg h2]
        rw [hstep, ih (acc ++ [(dedupeKey u, u)]), dedupeSpec_cons, if_neg hnm,
          if_neg h2, List.map_append]
        rw [dedupeSpec_congr t (acc.map Prod.fst ++ [(dedupeKey u, u)].map Prod.fst)
          (dedupeKey u :: acc.map Prod.fst) (by
            intro d
            rw [List.mem_append, List.mem_cons]
            simp [or_comm])]
        simp

/-- Every entry of the first-wins dictionary is keyed by its value, its key
is new and not excluded, and its value is the first hit carrying that key:
nothing before it in the input shares the key. -/
lemma dedupeSpec_first (l : List (List Char)) :
    ∀ seen kv, kv ∈ dedupeSpec seen l →
      kv.1 = dedupeKey kv.2 ∧ kv.1 ∉ seen ∧ keyExcluded kv.1 = false
      ∧ ∃ l1 l2, l = l1 ++ kv.2 :: l2 ∧ ∀ v ∈ l1, dedupeKey v ≠ kv.1 := by
  induction l with
  | nil =>
    intro seen kv h
    exact absurd h (List.not_mem_nil kv)
  | cons u t ih =>
    intro seen kv h
    rw [dedupeSpec_cons] at h
    by_cases h1 : dedupeKey u ∈ seen
    · rw [if_pos h1] at h
      obtain ⟨ha, hb, hc, l1, l2, hsplit, hfirst⟩ := ih seen kv h
      refine ⟨ha, hb, hc, u :: l1, l2, by rw [hsplit]; rfl, ?_⟩
      intro v hv
      rcases List.mem_cons.mp hv with rfl | hv2
      · intro he
        exact hb (he ▸ h1)
      · exact hfirst v hv2
    · rw [if_neg h1] at h
      by_cases h2 : keyExcluded (dedupeKey u) = true
      · rw [if_pos h2] at h
        obtain ⟨ha, hb, hc, l1, l2, hsplit, hfirst⟩ := ih seen kv h
        refine ⟨ha, hb, hc, u :: l1, l2, by rw [hsplit]; rfl, ?_⟩
        intro v hv
        rcases List.mem_cons.mp hv with rfl | hv2
        · intro he
          rw [he] at h2
          rw [h2] at hc
          exact absurd hc (by decide)
        · exact hfirst v hv2
      · rw [if_neg h2] at h
        rcases List.mem_cons.mp h with rfl | h3
        · refine ⟨rfl, h1, ?_, [], t, rfl, ?_⟩
          · revert h2
            cases keyExcluded (dedupeKey u) <;> simp
          · intro v hv
            exact absurd hv (List.not_mem_nil v)
        · obtain ⟨ha, hb, hc, l1, l2, hsplit, hfirst⟩ := ih _ kv h3
          have hb1 : kv.1 ≠ dedupeKey u :=
            fun he => hb (he ▸ List.mem_cons_self _ _)
          have hb2 : kv.1 ∉ seen := fun he => hb (List.mem_cons_of_mem _ he)
          refine ⟨ha, hb2, hc, u :: l1, l2, by rw [hsplit]; rfl, ?_⟩
          intro v hv
          rcases List.mem_cons.mp hv with rfl | hv2
          · exact fun he => hb1 he.symm
          · exact hfirst v hv2

/-- C4 (amended): the deduplication loop is deterministic, order-preserving
and first-wins over its key — the registrable domain, or the raw URL when
the domain is empty; the output is a subsequence of the input truncated to
the maximum; keys are never duplicated; a hit is dropped only when its key
equals or ends with a search-engine exclude entry (classification happens
earlier, inside the providers, not here); the fold equals the first-wins
dictionary dedupeSpec for every input, so the retained value of each key is
its first occurrence — no earlier hit of the input shares the key of a
retained entry — and the two acme-builders hits collapse to one candidate
holding the first-seen URL. -/
theorem C4_dedupe_order_firstwins (alls : List (List Char)) (maxs : Nat) :
    (dedupeByDomain alls maxs).length ≤ maxs
    ∧ (dedupeByDomain alls maxs).Sublist alls
    ∧ ((alls.foldl dedupeStep []).map Prod.fst).Nodup
    ∧ (∀ kv ∈ alls.foldl dedupeStep [], kv.1 = dedupeKey kv.2 ∧ kv.2 ∈ alls
        ∧ keyExcluded kv.1 = false)
    ∧ (∀ u ∈ alls, keyExcluded (dedupeKey u) = false →
        dedupeKey u ∈ (alls.foldl dedupeStep []).map Prod.fst)
    ∧ dedupeByDomain [cs "https://acme-builders.com/",
        cs "https://www.acme-builders.com/projects"] 10
      = [cs "https://acme-builders.com/"]
    ∧ alls.foldl dedupeStep [] = dedupeSpec [] alls
    ∧ dedupeByDomain alls maxs = ((dedupeSpec [] alls).map (fun kv => kv.2)).take maxs
    ∧ (∀ kv ∈ alls.foldl dedupeStep [],
        ∃ l1 l2, alls = l1 ++ kv.2 :: l2 ∧ ∀ v ∈ l1, dedupeKey v ≠ kv.1) := by
  have hspec : alls.foldl dedupeStep [] = dedupeSpec [] alls := by
    have h := dedupe_foldl_spec alls []
    rw [List.map_nil, List.nil_append] at h
    exact h
  refine ⟨List.length_take_le _ _, ?_, dedupe_keys_nodup alls [] (by simp),
    ?_, ?_, by decide, hspec, ?_, ?_⟩
  · have h1 := dedupe_sublist alls []
    rw [List.map_nil, List.nil_append] at h1
    exact (List.take_sublist maxs _).trans h1
  · intro kv hkv
    rcases dedupe_entries alls [] kv hkv with hin | hp
    · exact absurd hin (List.not_mem_nil kv)
    · exact hp
  · intro u hu hex
    exact dedupe_covers alls [] u hu hex
  · show ((alls.foldl dedupeStep []).map (fun kv => kv.2)).take maxs = _
    rw [hspec]
  · intro kv hkv
    rw [hspec] at hkv
    obtain ⟨_, _, _, l1, l2, hsplit, hfirst⟩ := dedupeSpec_first alls [] kv hkv
    exact ⟨l1, l2, hsplit, hfirst⟩

/-- Witness for C4: the key of a concrete URL appears in the fold. -/
theorem C4_dedupe_order_firstwins_witness :
    dedupeKey (cs "https://www.x.com/a")
      ∈ (([cs "https://www.x.com/a"].foldl dedupeStep []).map Prod.fst) :=
  (C4_dedupe_order_firstwins [cs "https://www.x.com/a"] 5).2.2.2.2.1
    (cs "https://www.x.com/a") (by decide) (by decide)

/-- Counterexample for C4 as stated: a hit with an empty registrable domain
is not dropped — it is kept keyed by the raw URL — and a hit the site
classifier would reject (a facebook URL) is also kept, because the loop
only consults the exclude list. -/
theorem C4_counterexample :
    domain_of (cs "no-host-string") = []
    ∧ dedupeByDomain [cs "no-host-string"] 10 = [cs "no-host-string"]
    ∧ looks_like_business_site (cs "https://facebook.com/page") = false
    ∧ dedupeByDomain [cs "https://facebook.com/page"] 10
      = [cs "https://facebook.com/page"] := by
  decide

/-- Python slicing with a nonnegative bound is take. -/
lemma pySliceTo_nonneg (count : Int) (hc : 0 ≤ count) (l : List α) :
    pySliceTo count l = l.take count.toNat := by
  rw [pySliceTo, if_pos hc]

/-- A value passing the JSON-level classifier is a string the site
classifier accepts. -/
lemma classifierJ_spec {j : Json} (h : classifierJ j = true) :
    ∃ s, j = Json.str s ∧ looks_like_business_site s = true := by
  cases j with
  | str s => exact ⟨s, rfl, h⟩
  | null => exact absurd h (by intro hx; exact Bool.false_ne_true hx)
  | bool b => exact absurd h (by intro hx; exact Bool.false_ne_true hx)
  | num n => exact absurd h (by intro hx; exact Bool.false_ne_true hx)
  | arr l => exact absurd h (by intro hx; exact Bool.false_ne_true hx)
  | obj f => exact absurd h (by intro hx; exact Bool.false_ne_true hx)

/-- A nonnegative slice of a filtered list is bounded by the count and
consists only of values passing the filter. -/
lemma slice_filter_spec {p : Json → Bool} (urls : List Json) (count : Int)
    (hc : 0 ≤ count) :
    (pySliceTo count (urls.filter p)).length ≤ count.toNat
    ∧ ∀ j ∈ pySliceTo count (urls.filter p), p j = true := by
  rw [pySliceTo_nonneg count hc]
  refine ⟨List.length_take_le _ _, ?_⟩
  intro j hj
  exact (List.mem_filter.mp (List.take_subset _ _ hj)).2

/-- Reduction of search_bing_api on a parsed response. -/
lemma search_bing_ok_eq (key : List Char) (data : Json) (count : Int)
    (hk : ¬key.isEmpty = true) :
    search_bing_api key (.ok data) count
      = (match bingExtract data with
         | .error _ => []
         | .ok urls => pySliceTo count (urls.filter classifierJ)) := by
  unfold search_bing_api
  rw [if_neg hk]

/-- Every Bing search result is either the empty list or a classifier-
filtered slice of the harvested URLs. -/
lemma search_bing_shape (key : List Char) (resp : ApiResponse) (count : Int) :
    search_bing_api key resp count = []
    ∨ ∃ urls : List Json, search_bing_api key resp count
        = pySliceTo count (urls.filter classifierJ) := by
  by_cases hk : key.isEmpty = true
  · left
    unfold search_bing_api
    rw [if_pos hk]
  · cases resp with
    | failure =>
      left
      unfold search_bing_api
      rw [if_neg hk]
    | ok data =>
      rw [search_bing_ok_eq key data count hk]
      cases hbe : bingExtract data with
      | error e => exact Or.inl rfl
      | ok urls => exact Or.inr ⟨urls, rfl⟩

/-- Reduction of search_serp_api on a parsed response. -/
lemma search_serp_ok_eq (bu key : List Char) (data : Json) (count : Int)
    (hk : ¬(bu.isEmpty || key.isEmpty) = true) :
    search_serp_api bu key (.ok data) count
      = (match serpExtract data with
         | .error _ => []
         | .ok urls => pySliceTo count
             (urls.filter (fun u => jTruthy u && classifierJ u))) := by
  unfold search_serp_api
  rw [if_neg hk]

/-- Every serp search result is either the empty list or a truthiness-and-
classifier-filtered slice of the harvested URLs. -/
lemma search_serp_shape (bu key : List Char) (resp : ApiResponse) (count : Int) :
    search_serp_api bu key resp count = []
    ∨ ∃ urls : List Json, search_serp_api bu key resp count
        = pySliceTo count (urls.filter (fun u => jTruthy u && classifierJ u)) := by
  by_cases hk : (bu.isEmpty || key.isEmpty) = true
  · left
    unfold search_serp_api
    rw [if_pos hk]
  · cases resp with
    | failure =>
      left
      unfold search_serp_api
      rw [if_neg hk]
    | ok data =>
      rw [search_serp_ok_eq bu key data count hk]
      cases hbe : serpExtract data with
      | error e => exact Or.inl rfl
      | ok urls => exact Or.inr ⟨urls, rfl⟩

/-- C6 (amended): for every key, base URL, provider response and
nonnegative requested count, the two search functions return at most count
results, every returned value is a string URL accepted by the site
classifier, and a provider failure or missing credential yields the empty
list rather than an exception (the model is total by construction). -/
theorem C6_search_providers (key bu : List Char) (resp : ApiResponse) (count : Int)
    (hc : 0 ≤ count) :
    ((search_bing_api key resp count).length ≤ count.toNat
      ∧ ∀ j ∈ search_bing_api key resp count,
          ∃ s, j = Json.str s ∧ looks_like_business_site s = true)
    ∧ ((search_serp_api bu key resp count).length ≤ count.toNat
      ∧ ∀ j ∈ search_serp_api bu key resp count,
          ∃ s, j = Json.str s ∧ looks_like_business_site s = true)
    ∧ search_bing_api key .failure count = []
    ∧ search_serp_api bu key .failure count = []
    ∧ search_bing_api [] resp count = []
    ∧ search_serp_api [] key resp count = []
    ∧ search_serp_api bu [] resp count = [] := by
  refine ⟨?_, ?_, ?_, ?_, rfl, rfl, ?_⟩
  · rcases search_bing_shape key resp count with he | ⟨urls, he⟩
    · rw [he]
      exact ⟨by simp, by simp⟩
    · rw [he]
      have hs := slice_filter_spec (p := classifierJ) urls count hc
      exact ⟨hs.1, fun j hj => classifierJ_spec (hs.2 j hj)⟩
  · rcases search_serp_shape bu key resp count with he | ⟨urls, he⟩
    · rw [he]
      exact ⟨by simp, by simp⟩
    · rw [he]
      have hs := slice_filter_spec (p := fun u => jTruthy u && classifierJ u)
        urls count hc
      refine ⟨hs.1, fun j hj => classifierJ_spec ?_⟩
      have hj2 := hs.2 j hj
      rw [Bool.and_eq_true] at hj2
      exact hj2.2
  · unfold search_bing_api
    by_cases hk : key.isEmpty = true
    · rw [if_pos hk]
    · rw [if_neg hk]
  · unfold search_serp_api
    by_cases hk : (bu.isEmpty || key.isEmpty) = true
    · rw [if_pos hk]
    · rw [if_neg hk]
  · unfold search_serp_api
    rw [if_pos (by rw [show ([] : List Char).isEmpty = true from rfl, Bool.or_true])]

/-- Witness for C6: a failed provider call yields the empty list. -/
theorem C6_search_providers_witness :
    search_bing_api (cs "k") ApiResponse.failure 5 = [] :=
  (C6_search_providers (cs "k") (cs "b") ApiResponse.failure 5 (by decide)).2.2.1

/-- A Bing response holding two classifier-passing URLs. -/
def bingTwoUrls : Json :=
  .obj [(cs "webPages", .obj [(cs "value", .arr
    [.obj [(cs "url", .str (cs "https://a.com"))],
     .obj [(cs "url", .str (cs "https://b.com"))]])])]

/-- Counterexample for C6 as stated: with a negative requested count the
slice keeps one of the two URLs, so the returned length exceeds the
requested count. -/
theorem C6_counterexample :
    (search_bing_api (cs "k") (.ok bingTwoUrls) (-1)).length = 1
    ∧ ¬((1 : Int) ≤ -1) := by
  refine ⟨rfl, by decide⟩

/-- Witness for C5: facebook.com is in the social blocklist. -/
theorem C5_classifier_ordered_rules_witness :
    cs "facebook.com" ∈ SOCIAL_AGG_DOMAINS :=
  C5_classifier_ordered_rules.2.2.2.1 (cs "facebook.com") (by decide)

/-- A page with visible text but no address at all. -/
def plainDoc : HtmlDoc :=
  { mailtoHrefs := [], phoneNodeTexts := [], phoneTextMatches := [],
    text := cs "no address here", title := none, h1Text := none, orgText := none }

/-- Witness for C7: a page without any address yields an empty email field. -/
theorem C7_extract_email_amended_witness :
    (extract_company_info_from_html plainDoc).2.1 = none :=
  C7_extract_email_amended.2.1 plainDoc rfl (by decide)
